import Mathlib

/-!
Verification of the core claims of the rCore-style teaching kernel
(EasyFS on-disk file system + task/process subsystem).

Definitions are shallow embeddings of the Rust sources:
  * `src/easy-fs/src/layout.rs`  — `DiskInode` and its block-index operations
  * `src/easy-fs/src/efs.rs`     — `EasyFileSystem::create` super-block accounting
  * `src/easy-fs/src/vfs.rs`     — the `Inode` facade (`write_at` grows first)
  * `src/os/src/fs/inode.rs`     — `OpenFlags` / `open_file`
  * `src/os/src/fs/pipe.rs`      — `PipeRingBuffer`
  * `src/os/src/sync/mutex.rs`   — `MutexBlocking`
  * `src/os/src/task/id.rs`      — `RecycleAllocator`
  * `src/os/src/syscall/process.rs` — `sys_waitpid`, `sys_kill`

Machine integers are modelled as `Nat` (all the quantities involved stay far
below 2^32 under the stated hypotheses); a Rust `assert!`/`unwrap` failure is
modelled as `Option.none`.  The 512-byte block device plus the write-back
block cache are modelled as a single function `Disk : Nat → Nat → Nat`
(block id → cell index → stored value): a data block stores bytes at cells
0..511, an index block stores u32 block ids at cells 0..127, exactly
mirroring the typed views `DataBlock` / `IndirectBlock` that the Rust code
lays over one 512-byte buffer.
-/

/-- Update a function-represented array at one index. -/
def setIdx (f : Nat → Nat) (i v : Nat) : Nat → Nat :=
  fun j => if j = i then v else f j

/-! ## `RecycleAllocator` (src/os/src/task/id.rs, lines 126-157)

The `recycled` vector is kept in push order; `Vec::pop` removes the last
element. -/

structure RecycleAllocator where
  current : Nat
  recycled : List Nat
  deriving Repr, DecidableEq

def RecycleAllocator.new : RecycleAllocator := ⟨0, []⟩

/-- `alloc`: pop from the free list, else bump the monotonic counter. -/
def RecycleAllocator.alloc (a : RecycleAllocator) : Nat × RecycleAllocator :=
  match a.recycled.getLast? with
  | some id => (id, ⟨a.current, a.recycled.dropLast⟩)
  | none => (a.current, ⟨a.current + 1, a.recycled⟩)

/-- `dealloc`: the source asserts `id < current` and then asserts
`recycled.iter().any(|i| *i == id)` (with panic message
"id {} has been deallocated") before pushing; a failed assertion is `none`. -/
def RecycleAllocator.dealloc (a : RecycleAllocator) (id : Nat) :
    Option RecycleAllocator :=
  if id < a.current then
    if a.recycled.any (· == id) then
      some ⟨a.current, a.recycled ++ [id]⟩
    else
      none
  else
    none

/-! ## `OpenFlags` / `open_file` (src/os/src/fs/inode.rs, lines 104-151)

The root directory is abstracted by its `find` and `create` operations
(`ROOT_INODE.find` / `ROOT_INODE.create`), each returning the inode found or
created; `inode.clear()` does not affect which inode is returned, so it is
not modelled here. -/

def OpenFlags.WRITE_ONLY : Nat := 1
def OpenFlags.READ_WRITE : Nat := 2
def OpenFlags.CREATE : Nat := 512
def OpenFlags.TRUNCATE : Nat := 1024

/-- bitflags `contains`: all bits of `bit` are set in `flags`. -/
def OpenFlags.contains (flags bit : Nat) : Bool := flags &&& bit == bit

/-- `OpenFlags::read_write`: (readable, writable). -/
def OpenFlags.read_write (flags : Nat) : Bool × Bool :=
  if flags = 0 then (true, false)
  else if OpenFlags.contains flags OpenFlags.WRITE_ONLY then (false, true)
  else (true, true)

structure OSInode where
  readable : Bool
  writable : Bool
  inode : Nat
  deriving Repr, DecidableEq

/-- `open_file(name, flags)` of src/os/src/fs/inode.rs: the CREATE branch
clears-and-reopens or creates; the TRUNCATE branch clears-and-opens; the
final statement of the function is a bare `None`. -/
def open_file (find : String → Option Nat) (create : String → Option Nat)
    (name : String) (flags : Nat) : Option OSInode :=
  let rw := OpenFlags.read_write flags
  if OpenFlags.contains flags OpenFlags.CREATE then
    match find name with
    | some inode => some ⟨rw.1, rw.2, inode⟩
    | none => (create name).map fun inode => ⟨rw.1, rw.2, inode⟩
  else if OpenFlags.contains flags OpenFlags.TRUNCATE then
    (find name).map fun inode => ⟨rw.1, rw.2, inode⟩
  else
    none

/-! ## `sys_kill` (src/os/src/syscall/process.rs, lines 155-174)

The pid → task lookup is abstracted by an `Option` of the target's pending
signal bitmask (`task_inner.signals`, a 32-bit bitflags value).  All 32 bits
name signals in `SignalFlags`, so `from_bits` succeeds exactly on 32-bit
values. -/

def SignalFlags.from_bits (bits : Nat) : Option Nat :=
  if bits < 2 ^ 32 then some bits else none

/-- `sys_kill(pid, signum)`; `target` is `get_task_by_pid(pid)` reduced to the
target's pending-signal bitmask.  Returns the syscall result together with the
target's new pending set. -/
def sys_kill (target : Option Nat) (signum : Nat) : Int × Option Nat :=
  match target with
  | none => (-1, none)
  | some signals =>
    match SignalFlags.from_bits (1 <<< signum) with
    | none => (-1, some signals)
    | some flag =>
      if signals &&& flag == flag then
        (-1, some signals)
      else
        (0, some (signals ||| flag))

/-! ## `EasyFileSystem::create` super-block accounting
(src/easy-fs/src/efs.rs, lines 22-87; src/easy-fs/src/bitmap.rs) -/

def BLOCK_SIZE : Nat := 512
def BLOCK_BITS : Nat := BLOCK_SIZE * 8
def DISK_INODE_SIZE : Nat := 128

structure SuperBlock where
  magic : Nat
  total_blocks : Nat
  inode_bitmap_blocks : Nat
  inode_area_blocks : Nat
  data_bitmap_blocks : Nat
  data_area_blocks : Nat
  deriving Repr, DecidableEq

/-- The super block written by `EasyFileSystem::create(device, total_blocks,
inode_bitmap_blocks)`.  `Bitmap::maximum` is `blocks * BLOCK_BITS`. -/
def efs_create_super_block (total_blocks inode_bitmap_blocks : Nat) : SuperBlock :=
  let inode_num := inode_bitmap_blocks * BLOCK_BITS
  let inode_area_blocks := (inode_num * DISK_INODE_SIZE + BLOCK_SIZE - 1) / BLOCK_SIZE
  let inode_total_block := inode_bitmap_blocks + inode_area_blocks
  let data_total_blocks := total_blocks - 1 - inode_total_block
  let data_bitmap_blocks := (data_total_blocks + BLOCK_BITS) / (BLOCK_BITS + 1)
  let data_area_blocks := data_total_blocks - data_bitmap_blocks
  { magic := 0x3b800001
    total_blocks := total_blocks
    inode_bitmap_blocks := inode_bitmap_blocks
    inode_area_blocks := inode_area_blocks
    data_bitmap_blocks := data_bitmap_blocks
    data_area_blocks := data_area_blocks }

/-! ## `sys_waitpid` (src/os/src/syscall/process.rs, lines 87-120)

A child is abstracted by the fields `sys_waitpid` consults: its pid, whether
`is_zombie()`, its `exit_code`, and its `Arc` strong count at removal time.
The result is `(return value, new children list, exit code written through
the user pointer)`; the failed `assert_eq!(Arc::strong_count(&child), 1)` is
`none`. -/

structure ChildProc where
  pid : Nat
  zombie : Bool
  exit_code : Int
  strong_count : Nat
  deriving Repr, DecidableEq

/-- `pid == ANY_PROCESS || (pid as usize) == child.getpid()`. -/
def waitMatches (pid : Int) (c : ChildProc) : Bool := pid == -1 || pid == (c.pid : Int)

def sys_waitpid (pid : Int) (children : List ChildProc) :
    Option (Int × List ChildProc × Option Int) :=
  if (children.find? (fun c => waitMatches pid c)).isNone then
    some (-1, children, none)
  else
    match children.enum.find? (fun ic => ic.2.zombie && waitMatches pid ic.2) with
    | some (idx, c) =>
      if c.strong_count = 1 then
        some ((c.pid : Int), children.eraseIdx idx, some c.exit_code)
      else
        none
    | none => some (-2, children, none)

/-! ## `MutexBlocking` (src/os/src/sync/mutex.rs, lines 51-95)

Tasks are identified by a `Nat`.  The scheduler state is the ready queue
(`TaskManager.ready_queue`, a FIFO of task handles) together with each task's
`task_status` field.  `block_current_and_run_next` (src/os/src/task/mod.rs)
sets the caller's status to `Blocking` and schedules away;
`add_task` (src/os/src/task/manager.rs) only pushes onto the ready queue. -/

inductive TaskStatus where
  | ready
  | running
  | blocking
  | zombie
  deriving Repr, DecidableEq

structure SchedState where
  readyQueue : List Nat
  status : Nat → TaskStatus

structure MutexBlockingState where
  locked : Bool
  waitQueue : List Nat
  deriving Repr, DecidableEq

/-- `add_task`: push onto the ready queue (no status change). -/
def addTask (ks : SchedState) (t : Nat) : SchedState :=
  { ks with readyQueue := ks.readyQueue ++ [t] }

/-- `block_current_and_run_next`: mark the current task `Blocking` and
schedule away. -/
def blockCurrent (ks : SchedState) (t : Nat) : SchedState :=
  { ks with status := fun x => if x = t then TaskStatus.blocking else ks.status x }

/-- `MutexBlocking::lock`, called by task `t` (the current task). -/
def MutexBlocking.lock (m : MutexBlockingState) (ks : SchedState) (t : Nat) :
    MutexBlockingState × SchedState :=
  if m.locked then
    ({ m with waitQueue := m.waitQueue ++ [t] }, blockCurrent ks t)
  else
    ({ m with locked := true }, ks)

/-- `MutexBlocking::unlock`; the source asserts `inner.locked` (`none` on
failure), then wakes the queue head via `add_task` or clears the flag. -/
def MutexBlocking.unlock (m : MutexBlockingState) (ks : SchedState) :
    Option (MutexBlockingState × SchedState) :=
  if m.locked then
    match m.waitQueue with
    | t :: rest => some ({ m with waitQueue := rest }, addTask ks t)
    | [] => some ({ m with locked := false }, ks)
  else
    none

/-! ## `PipeRingBuffer` (src/os/src/fs/pipe.rs, lines 97-166) -/

def RING_BUFFER_SIZE : Nat := 32

inductive RingBufferStatus where
  | full
  | empty
  | normal
  deriving Repr, DecidableEq

structure PipeRingBuffer where
  arr : Nat → Nat
  head : Nat
  tail : Nat
  status : RingBufferStatus

def PipeRingBuffer.new : PipeRingBuffer :=
  { arr := fun _ => 0, head := 0, tail := 0, status := RingBufferStatus.empty }

/-- `read_byte`: sets status Normal, reads `arr[head]`, advances `head`,
sets status Empty if the pointers meet. -/
def PipeRingBuffer.read_byte (rb : PipeRingBuffer) : Nat × PipeRingBuffer :=
  let b := rb.arr rb.head
  let head' := (rb.head + 1) % RING_BUFFER_SIZE
  let status' := if head' = rb.tail then RingBufferStatus.empty else RingBufferStatus.normal
  (b, { rb with head := head', status := status' })

/-- `write_byte`: sets status Normal, stores at `arr[tail]`, advances `tail`,
sets status Full if the pointers meet. -/
def PipeRingBuffer.write_byte (rb : PipeRingBuffer) (b : Nat) : PipeRingBuffer :=
  let arr' := setIdx rb.arr rb.tail b
  let tail' := (rb.tail + 1) % RING_BUFFER_SIZE
  let status' := if rb.head = tail' then RingBufferStatus.full else RingBufferStatus.normal
  { arr := arr', head := rb.head, tail := tail', status := status' }

def PipeRingBuffer.available_read (rb : PipeRingBuffer) : Nat :=
  if rb.status = RingBufferStatus.empty then 0
  else if rb.tail > rb.head then rb.tail - rb.head
  else RING_BUFFER_SIZE - rb.head + rb.tail

def PipeRingBuffer.available_write (rb : PipeRingBuffer) : Nat :=
  if rb.status = RingBufferStatus.full then 0
  else RING_BUFFER_SIZE - rb.available_read

/-- States of the ring buffer reachable from the initial empty buffer by
`write_byte` when not full and `read_byte` when not empty — exactly the
guards under which `Pipe::write` / `Pipe::read` invoke them. -/
inductive PipeReachable : PipeRingBuffer → Prop where
  | init : PipeReachable PipeRingBuffer.new
  | write (rb : PipeRingBuffer) (b : Nat) : PipeReachable rb →
      rb.available_write ≠ 0 → PipeReachable (rb.write_byte b)
  | read (rb : PipeRingBuffer) : PipeReachable rb →
      rb.available_read ≠ 0 → PipeReachable rb.read_byte.2

/-! ## EasyFS layout (src/easy-fs/src/layout.rs)

`Disk` is the block device seen through the block cache: block id → cell
index → stored value.  Data blocks use cells 0..511 (bytes), index blocks use
cells 0..127 (u32 block ids), mirroring the `DataBlock` / `IndirectBlock`
views.  A cache `modify` that replaces a whole block is `diskSet`; a `modify`
that updates one cell is `diskSetIdx`. -/

abbrev Block := Nat → Nat
abbrev Disk := Nat → Block

def diskSet (disk : Disk) (blockId : Nat) (blk : Block) : Disk :=
  fun b => if b = blockId then blk else disk b

def diskSetIdx (disk : Disk) (blockId idx v : Nat) : Disk :=
  fun b => if b = blockId then setIdx (disk b) idx v else disk b

def INODE_DIRECT_COUNT : Nat := 28
def INODE_INDIRECT1_COUNT : Nat := BLOCK_SIZE / 4
def INODE_INDIRECT2_COUNT : Nat := INODE_INDIRECT1_COUNT * INODE_INDIRECT1_COUNT
def DIRECT_BOUND : Nat := INODE_DIRECT_COUNT
def INDIRECT1_BOUND : Nat := DIRECT_BOUND + INODE_INDIRECT1_COUNT
def INDIRECT2_BOUND : Nat := INDIRECT1_BOUND + INODE_INDIRECT2_COUNT

inductive DiskInodeType where
  | file
  | directory
  deriving Repr, DecidableEq

structure DiskInode where
  size : Nat
  direct : Nat → Nat
  indirect1 : Nat
  indirect2 : Nat
  type_ : DiskInodeType

/-- `DiskInode::initialize` (trailing underscore only to satisfy a naming
constraint of this development). -/
def DiskInode.initialize_ (type_ : DiskInodeType) : DiskInode :=
  { size := 0, direct := fun _ => 0, indirect1 := 0, indirect2 := 0, type_ := type_ }

/-- `DiskInode::get_block_id` (the source asserts
`inner_id < INDIRECT2_BOUND`; every use below stays within the bound). -/
def DiskInode.get_block_id (di : DiskInode) (disk : Disk) (innerId : Nat) : Nat :=
  if innerId < DIRECT_BOUND then
    di.direct innerId
  else if innerId < INDIRECT1_BOUND then
    disk di.indirect1 (innerId - DIRECT_BOUND)
  else
    let innerId' := innerId - INDIRECT1_BOUND
    let indirect1BlockId := disk di.indirect2 (innerId' / INODE_INDIRECT1_COUNT)
    disk indirect1BlockId (innerId' % INODE_INDIRECT1_COUNT)

/-- `DiskInode::_data_blocks`: `ceil(size / 512)`. -/
def DiskInode.dataBlocksOf (size : Nat) : Nat := (size + BLOCK_SIZE - 1) / BLOCK_SIZE

def DiskInode.data_blocks (di : DiskInode) : Nat := DiskInode.dataBlocksOf di.size

/-- `DiskInode::total_blocks`. -/
def DiskInode.total_blocks (size : Nat) : Nat :=
  let dataBlocks := DiskInode.dataBlocksOf size
  let total := dataBlocks
  let total := if dataBlocks > DIRECT_BOUND then total + 1 else total
  if dataBlocks > INDIRECT1_BOUND then
    total + 1 +
      (dataBlocks - INDIRECT1_BOUND + INODE_INDIRECT1_COUNT - 1) / INODE_INDIRECT1_COUNT
  else
    total

/-- `DiskInode::blocks_num_needed` (asserts `new_size >= size`). -/
def DiskInode.blocks_num_needed (di : DiskInode) (newSize : Nat) : Nat :=
  DiskInode.total_blocks newSize - DiskInode.total_blocks di.size

/-- One `while current < stop { f[current] = next(); current += 1 }` fill
loop over a function-represented array, consuming from the block-id
iterator.  Running out of ids is the source's `next().unwrap()` panic; the
loop then stops (every use below supplies enough ids). -/
def fillEntries (f : Nat → Nat) (current stop : Nat) (blocks : List Nat) :
    (Nat → Nat) × Nat × List Nat :=
  if _h : current < stop then
    match blocks with
    | b :: rest => fillEntries (setIdx f current b) (current + 1) stop rest
    | [] => (f, current, [])
  else
    (f, current, blocks)
termination_by stop - current

/-- The indirect2 fill loop of `increase_size`:
`while (a0 < a1) || (a0 == a1 && b0 < b1)`.  `ind2` is the in-cache
indirect2 block being mutated by the closure; entry writes go to the disk
through nested `get_block_cache(..).modify` calls.  `fuel` bounds the
iteration count (the caller passes enough for the loop to run to
completion). -/
def fillIndirect2 (fuel : Nat) (ind2 : Block) (disk : Disk) (a0 b0 a1 b1 : Nat)
    (blocks : List Nat) : Block × Disk × List Nat :=
  match fuel with
  | 0 => (ind2, disk, blocks)
  | fuel + 1 =>
    if a0 < a1 ∨ (a0 = a1 ∧ b0 < b1) then
      let step : Block × List Nat :=
        if b0 = 0 then
          match blocks with
          | b :: rest => (setIdx ind2 a0 b, rest)
          | [] => (ind2, [])
        else
          (ind2, blocks)
      let ind2' := step.1
      let entryStep : Nat × List Nat :=
        match step.2 with
        | b :: rest => (b, rest)
        | [] => (0, [])
      let disk' := diskSetIdx disk (ind2' a0) b0 entryStep.1
      if b0 + 1 = INODE_INDIRECT1_COUNT then
        fillIndirect2 fuel ind2' disk' (a0 + 1) 0 a1 b1 entryStep.2
      else
        fillIndirect2 fuel ind2' disk' a0 (b0 + 1) a1 b1 entryStep.2
    else
      (ind2, disk, blocks)

/-- `DiskInode::increase_size(new_size, new_blocks, device)`.  Returns the
updated inode and disk. -/
def DiskInode.increase_size (di : DiskInode) (disk : Disk) (newSize : Nat)
    (newBlocks : List Nat) : DiskInode × Disk :=
  let currentBlocks := di.data_blocks
  let totalBlocks := DiskInode.dataBlocksOf newSize
  let fill1 := fillEntries di.direct currentBlocks (min totalBlocks INODE_DIRECT_COUNT) newBlocks
  let direct' := fill1.1
  let current1 := fill1.2.1
  let blocks1 := fill1.2.2
  if totalBlocks ≤ INODE_DIRECT_COUNT then
    ({ di with size := newSize, direct := direct' }, disk)
  else
    let metaStep1 : Nat × List Nat :=
      if current1 = INODE_DIRECT_COUNT then
        match blocks1 with
        | b :: rest => (b, rest)
        | [] => (di.indirect1, [])
      else
        (di.indirect1, blocks1)
    let indirect1' := metaStep1.1
    let current2 := current1 - INODE_DIRECT_COUNT
    let total2 := totalBlocks - INODE_DIRECT_COUNT
    let fill2 := fillEntries (disk indirect1') current2 (min total2 INODE_INDIRECT1_COUNT) metaStep1.2
    let disk1 := diskSet disk indirect1' fill2.1
    let current3 := fill2.2.1
    let blocks3 := fill2.2.2
    if total2 ≤ INODE_INDIRECT1_COUNT then
      ({ di with size := newSize, direct := direct', indirect1 := indirect1' }, disk1)
    else
      let metaStep2 : Nat × List Nat :=
        if current3 = INODE_INDIRECT1_COUNT then
          match blocks3 with
          | b :: rest => (b, rest)
          | [] => (di.indirect2, [])
        else
          (di.indirect2, blocks3)
      let indirect2' := metaStep2.1
      let current4 := current3 - INODE_INDIRECT1_COUNT
      let total4 := total2 - INODE_INDIRECT1_COUNT
      let a0 := current4 / INODE_INDIRECT1_COUNT
      let b0 := current4 % INODE_INDIRECT1_COUNT
      let a1 := total4 / INODE_INDIRECT1_COUNT
      let b1 := total4 % INODE_INDIRECT1_COUNT
      let fill3 := fillIndirect2 (a1 * INODE_INDIRECT1_COUNT + b1 + 1) (disk1 indirect2')
        disk1 a0 b0 a1 b1 metaStep2.2
      let disk2 := diskSet fill3.2.1 indirect2' fill3.1
      let di' := { di with size := newSize, direct := direct', indirect1 := indirect1' }
      ({ di' with indirect2 := indirect2' }, disk2)

/-- `buf[off .. off + len]`. -/
def listSlice (buf : List Nat) (off len : Nat) : List Nat := (buf.drop off).take len

/-- One `while current < stop { v.push(f[current]); f[current] = 0; current += 1 }`
drain loop of `clear_size`, returning the zeroed array and the pushed ids in
push order. -/
def drainEntries (f : Nat → Nat) (current stop : Nat) : (Nat → Nat) × List Nat :=
  if _h : current < stop then
    let rest := drainEntries (setIdx f current 0) (current + 1) stop
    (rest.1, f current :: rest.2)
  else
    (f, [])
termination_by stop - current

/-- Read cells `0..n` of a block (`for entry in block.iter().take(n)`). -/
def collectRange (blk : Block) (n : Nat) : List Nat :=
  (List.range n).map blk

/-- The `clear_size` walk over the full indirect1 groups of the indirect2
block: for each group, push the group's indirect1 block id and then all of
its 128 entries (the loop only reads; it does not zero these blocks). -/
def clearIndirect2Full (ind2 : Block) (disk : Disk) (i a1 : Nat) : List Nat :=
  if _h : i < a1 then
    (ind2 i :: collectRange (disk (ind2 i)) INODE_INDIRECT1_COUNT) ++
      clearIndirect2Full ind2 disk (i + 1) a1
  else
    []
termination_by a1 - i

/-- `DiskInode::clear_size(device)`: returns the updated inode, the disk, and
the freed block ids in push order.  (The source asserts
`data_blocks <= INODE_INDIRECT2_COUNT` in the indirect2 branch.) -/
def DiskInode.clear_size (di : DiskInode) (disk : Disk) :
    DiskInode × Disk × List Nat :=
  let dataBlocks := di.data_blocks
  let drain1 := drainEntries di.direct 0 (min dataBlocks INODE_DIRECT_COUNT)
  let di1 := { di with size := 0, direct := drain1.1 }
  if dataBlocks ≤ INODE_DIRECT_COUNT then
    (di1, disk, drain1.2)
  else
    let dataBlocks1 := dataBlocks - INODE_DIRECT_COUNT
    let drain2 := drainEntries (disk di.indirect1) 0 (min dataBlocks1 INODE_INDIRECT1_COUNT)
    let disk1 := diskSet disk di.indirect1 drain2.1
    let di2 := { di1 with indirect1 := 0 }
    if dataBlocks1 ≤ INODE_INDIRECT1_COUNT then
      (di2, disk1, drain1.2 ++ di.indirect1 :: drain2.2)
    else
      let dataBlocks2 := dataBlocks1 - INODE_INDIRECT1_COUNT
      let a1 := dataBlocks2 / INODE_INDIRECT1_COUNT
      let b1 := dataBlocks2 % INODE_INDIRECT1_COUNT
      let ind2blk := disk1 di.indirect2
      let vfull := clearIndirect2Full ind2blk disk1 0 a1
      let vlast :=
        if b1 > 0 then ind2blk a1 :: collectRange (disk1 (ind2blk a1)) b1 else []
      let di3 := { di2 with indirect2 := 0 }
      (di3, disk1, drain1.2 ++ di.indirect1 :: drain2.2 ++ di.indirect2 :: (vfull ++ vlast))

/-- Copy `src` into a block starting at cell `dstOff`
(`dst.copy_from_slice(src)` on `data_block[dstOff .. dstOff + src.len]`). -/
def blockCopy (blk : Block) (dstOff : Nat) (src : List Nat) : Block :=
  fun j => if dstOff ≤ j ∧ j < dstOff + src.length then src.getD (j - dstOff) 0 else blk j

/-- The block-by-block loop of `DiskInode::write_at`.  Each iteration writes
`buf[writeSize .. writeSize + block_write_size]` into the current data block
and stops when the current block reaches `endPos`. -/
def writeAtLoop (di : DiskInode) (disk : Disk) (buf : List Nat)
    (start endPos startBlock writeSize : Nat) : Disk × Nat :=
  let endCurrentBlock := min ((startBlock + 1) * BLOCK_SIZE) endPos
  let blockWriteSize := endCurrentBlock - start
  let blockId := di.get_block_id disk startBlock
  let disk' := diskSet disk blockId
    (blockCopy (disk blockId) (start % BLOCK_SIZE) (listSlice buf writeSize blockWriteSize))
  let writeSize' := writeSize + blockWriteSize
  if h : endCurrentBlock = endPos then
    (disk', writeSize')
  else
    writeAtLoop di disk' buf endCurrentBlock endPos (startBlock + 1) writeSize'
termination_by endPos - startBlock * BLOCK_SIZE
decreasing_by
  have hx : (startBlock + 1) * BLOCK_SIZE < endPos := by
    by_contra hc
    push_neg at hc
    exact h (Nat.min_eq_right hc)
  simp only [BLOCK_SIZE] at hx ⊢
  omega

/-- `DiskInode::write_at(offset, buf, device)`: clips to
`[offset, min(offset + buf.len, size))`; never touches `size` (the returned
inode is the untouched receiver).  Returns (inode, disk, bytes written). -/
def DiskInode.write_at (di : DiskInode) (disk : Disk) (offset : Nat)
    (buf : List Nat) : DiskInode × Disk × Nat :=
  let start := offset
  let endPos := min (offset + buf.length) di.size
  if start ≥ endPos then
    (di, disk, 0)
  else
    let r := writeAtLoop di disk buf start endPos (start / BLOCK_SIZE) 0
    (di, r.1, r.2)

/-- The block-by-block loop of `DiskInode::read_at`; the bytes copied into
`buf` are accumulated in `acc` in copy order. -/
def readAtLoop (di : DiskInode) (disk : Disk) (start endPos startBlock : Nat)
    (acc : List Nat) : List Nat :=
  let endCurrentBlock := min ((startBlock + 1) * BLOCK_SIZE) endPos
  let blockReadSize := endCurrentBlock - start
  let blockId := di.get_block_id disk startBlock
  let chunk := (List.range blockReadSize).map fun j => disk blockId (start % BLOCK_SIZE + j)
  let acc' := acc ++ chunk
  if h : endCurrentBlock = endPos then
    acc'
  else
    readAtLoop di disk endCurrentBlock endPos (startBlock + 1) acc'
termination_by endPos - startBlock * BLOCK_SIZE
decreasing_by
  have hx : (startBlock + 1) * BLOCK_SIZE < endPos := by
    by_contra hc
    push_neg at hc
    exact h (Nat.min_eq_right hc)
  simp only [BLOCK_SIZE] at hx ⊢
  omega

/-- `DiskInode::read_at(offset, buf, device)`: the list of bytes copied into
`buf` (its length is the returned read size). -/
def DiskInode.read_at (di : DiskInode) (disk : Disk) (offset len : Nat) : List Nat :=
  let start := offset
  let endPos := min (offset + len) di.size
  if start ≥ endPos then
    []
  else
    readAtLoop di disk start endPos (start / BLOCK_SIZE) []

/-- The `Inode::increase_size` facade helper of src/easy-fs/src/vfs.rs: no-op
when `new_size < size`, otherwise allocates `blocks_num_needed` data blocks
and calls `DiskInode::increase_size`.  The data-block allocator is abstracted
by the list `newBlocks` of ids handed out by `fs.alloc_data()` (the theorems
require it to have the needed length). -/
def Inode.increase_size (di : DiskInode) (disk : Disk) (newSize : Nat)
    (newBlocks : List Nat) : DiskInode × Disk :=
  if newSize < di.size then
    (di, disk)
  else
    DiskInode.increase_size di disk newSize newBlocks

/-- `Inode::write_at(offset, buf)`: grows to `offset + buf.len` first, then
delegates to `DiskInode::write_at`.  Returns (inode, disk, bytes written). -/
def Inode.write_at (di : DiskInode) (disk : Disk) (offset : Nat) (buf : List Nat)
    (newBlocks : List Nat) : DiskInode × Disk × Nat :=
  let grown := Inode.increase_size di disk (offset + buf.length) newBlocks
  DiskInode.write_at grown.1 grown.2 offset buf

/-- `Inode::read_at(offset, buf)` delegates to `DiskInode::read_at`. -/
def Inode.read_at (di : DiskInode) (disk : Disk) (offset len : Nat) : List Nat :=
  DiskInode.read_at di disk offset len

/-- Read a range as consecutive chunks: read `chunks[0]` bytes at `offset`,
then `chunks[1]` bytes at `offset + chunks[0]`, …, concatenating the results. -/
def readChunks (di : DiskInode) (disk : Disk) (offset : Nat) : List Nat → List Nat
  | [] => []
  | c :: rest => Inode.read_at di disk offset c ++ readChunks di disk (offset + c) rest

/-- Position, in the `new_blocks` argument of a from-empty
`increase_size`, of the id that becomes data block `i` of the file
(the consumption order fixed by the source: direct ids, the indirect1 meta
id, its entries, the indirect2 meta id, then per group one indirect1 meta id
followed by its entries). -/
def dataPos (i : Nat) : Nat :=
  if i < INODE_DIRECT_COUNT then i
  else if i < INDIRECT1_BOUND then i + 1
  else
    INDIRECT1_BOUND + 3 +
      (INODE_INDIRECT1_COUNT + 1) * ((i - INDIRECT1_BOUND) / INODE_INDIRECT1_COUNT) +
      (i - INDIRECT1_BOUND) % INODE_INDIRECT1_COUNT

/-- Write consecutive cells `off, off+1, …` of block `q` with the values
`vals` (a chain of single-cell `modify` writes, as performed by the nested
`get_block_cache(..).modify` calls of the indirect2 fill loop). -/
def diskWriteCells (disk : Disk) (q : Nat) (off : Nat) : List Nat → Disk
  | [] => disk
  | v :: rest => diskWriteCells (diskSetIdx disk q off v) q (off + 1) rest

/-- The in-cache indirect2 block after `g` further full groups have been
consumed from `bl`: cell `a + x` receives the meta id `bl[129 x]`. -/
def buildInd2 (ind2 : Block) (bl : List Nat) (a g : Nat) : Block :=
  match g with
  | 0 => ind2
  | g + 1 => buildInd2 (setIdx ind2 a (bl.getD 0 0)) (bl.drop 129) (a + 1) g

/-- The disk after `g` further full indirect1 groups have been written from
`bl`: each group writes `bl[1..129]` into cells `0..128` of block `bl[0]`. -/
def buildGroups (disk : Disk) (bl : List Nat) (g : Nat) : Disk :=
  match g with
  | 0 => disk
  | g + 1 =>
    buildGroups (diskWriteCells disk (bl.getD 0 0) 0 (listSlice bl 1 INODE_INDIRECT1_COUNT))
      (bl.drop 129) g

/-- The part of the index structure that `get_block_id` consults, after the
structure has been built from empty by `increase_size` consuming the id list
`bs` (`n` data blocks): the first `min n 28` direct slots, the indirect1
block (id `bs[28]`) holding `bs[29..29+j]`, the indirect2 block (id
`bs[157]`) holding the group meta ids `bs[158 + 129 a]`, and each group's
indirect1 block holding its data ids. -/
def IndexOK (di : DiskInode) (d : Disk) (n : Nat) (bs : List Nat) : Prop :=
  (∀ j, j < n → j < INODE_DIRECT_COUNT → di.direct j = bs.getD j 0) ∧
  (INODE_DIRECT_COUNT < n →
    di.indirect1 = bs.getD 28 0 ∧
    ∀ j, j < min (n - 28) INODE_INDIRECT1_COUNT →
      d (bs.getD 28 0) j = bs.getD (29 + j) 0) ∧
  (INDIRECT1_BOUND < n →
    di.indirect2 = bs.getD 157 0 ∧
    (∀ a, 128 * a < n - 156 → d (bs.getD 157 0) a = bs.getD (158 + 129 * a) 0) ∧
    (∀ a c, c < 128 → 128 * a + c < n - 156 →
      d (bs.getD (158 + 129 * a) 0) c = bs.getD (159 + 129 * a + c) 0))

/-- `q` is none of the index (meta) block ids of a structure built from
`bs` with `n` data blocks. -/
def MetaFree (n : Nat) (bs : List Nat) (q : Nat) : Prop :=
  (INODE_DIRECT_COUNT < n → q ≠ bs.getD 28 0) ∧
  (INDIRECT1_BOUND < n →
    q ≠ bs.getD 157 0 ∧ ∀ a, 128 * a < n - 156 → q ≠ bs.getD (158 + 129 * a) 0)

/-! # Theorems -/

/-! ## C1 — `open_file` without CREATE/TRUNCATE -/

/-- C1: the claim states that `open_file(name, flags)` with neither CREATE
nor TRUNCATE set returns the opened file when a file of that name exists in
the root directory, and `none` only if it is absent.  The code instead ends
in a bare `None`: with the root directory containing "initproc" (the very
file the kernel itself opens with `READ_ONLY` and `unwrap`s at boot),
`open_file("initproc", READ_ONLY)` still returns `none`. -/
theorem open_file_read_only_existing_file_returns_none :
    open_file (fun n => if n = "initproc" then some 5 else none) (fun _ => none)
      "initproc" 0 = none ∧
    (fun n => if n = "initproc" then some 5 else none) "initproc" = some 5 := by
  constructor
  · rfl
  · rfl

/-! ## C2 — `RecycleAllocator::dealloc` -/

/-- C2: the claim states that deallocating an id previously returned by
`alloc` and not yet deallocated succeeds.  The very first such call already
fails: the fresh allocator's `alloc` returns id 0, and `dealloc(0)` hits the
assertion `recycled.iter().any(|i| *i == id)` (the double-free check with
its condition inverted: the message says "id 0 has been deallocated" even
though it never was), because `recycled` is empty. -/
theorem recycle_allocator_first_dealloc_panics :
    RecycleAllocator.new.alloc.1 = 0 ∧
    RecycleAllocator.new.alloc.2.dealloc 0 = none ∧
    RecycleAllocator.new.alloc.2.current = 1 := by
  refine ⟨rfl, rfl, rfl⟩

/-! ## C10 — `sys_kill` -/

/-- C10: for a pid mapping to a live process (`target = some signals`) and a
valid signal number (`signum ≤ 31`, so `from_bits(1 << signum)` succeeds),
`sys_kill` returns −1 and leaves the pending set unchanged when the signal
is already pending, and inserts the signal and returns 0 exactly when it was
not pending. -/
theorem sys_kill_spec (signals signum : Nat) (hs : signum ≤ 31) :
    (signals.testBit signum = true →
      sys_kill (some signals) signum = (-1, some signals)) ∧
    (signals.testBit signum = false →
      sys_kill (some signals) signum = ((0 : Int), some (signals ||| 1 <<< signum)) ∧
      (signals ||| 1 <<< signum).testBit signum = true) := by
  have hflag : (1 : Nat) <<< signum = 2 ^ signum := by
    rw [Nat.shiftLeft_eq, one_mul]
  have hlt : (1 : Nat) <<< signum < 2 ^ 32 := by
    rw [hflag]
    exact Nat.pow_lt_pow_right (by norm_num) (by omega)
  have hcond : (signals &&& 1 <<< signum == 1 <<< signum) = signals.testBit signum := by
    rw [hflag, Nat.and_two_pow]
    cases hb : signals.testBit signum
    · exact beq_eq_false_iff_ne.mpr (by simpa using (Nat.pow_pos (a := 2) (by norm_num)).ne)
    · simp
  constructor
  · intro hbit
    simp only [sys_kill, SignalFlags.from_bits, if_pos hlt, hcond, hbit, if_true]
  · intro hbit
    refine ⟨?_, ?_⟩
    · simp only [sys_kill, SignalFlags.from_bits, if_pos hlt, hcond, hbit,
        Bool.false_eq_true, if_false]
    · rw [Nat.testBit_or, hflag]
      simp [Nat.testBit_two_pow_self]

/-- C10 witness: signal 9 (SIGKILL) pending on neither side. -/
theorem sys_kill_spec_witness :
    sys_kill (some 0) 9 = (0, some 512) ∧ sys_kill (some 512) 9 = (-1, some 512) := by
  have h0 := (sys_kill_spec 0 9 (by decide)).2 (by decide)
  have h1 := (sys_kill_spec 512 9 (by decide)).1 (by decide)
  exact ⟨by simpa using h0.1, h1⟩

/-! ## C8 — `EasyFileSystem::create` super-block accounting -/

/-- C8: for parameters for which the subtraction
`total_blocks - 1 - inode_total_block` does not underflow (the u32
subtraction in the source), the super block written by
`EasyFileSystem::create` satisfies
`1 + inode_bitmap + inode_area + data_bitmap + data_area = total_blocks`,
with `data_bitmap_blocks = ceil(data_total / (4096 + 1))` and
`data_area_blocks = data_total - data_bitmap_blocks` where
`data_total = total_blocks - 1 - inode_bitmap_blocks - inode_area_blocks`. -/
theorem efs_create_super_block_spec (total ib : Nat)
    (h : 1 + ib + (efs_create_super_block total ib).inode_area_blocks ≤ total) :
    1 + (efs_create_super_block total ib).inode_bitmap_blocks +
        (efs_create_super_block total ib).inode_area_blocks +
        (efs_create_super_block total ib).data_bitmap_blocks +
        (efs_create_super_block total ib).data_area_blocks = total ∧
    (efs_create_super_block total ib).data_bitmap_blocks =
      (total - 1 - ib - (efs_create_super_block total ib).inode_area_blocks +
        (4096 + 1) - 1) / (4096 + 1) ∧
    (efs_create_super_block total ib).data_area_blocks =
      total - 1 - ib - (efs_create_super_block total ib).inode_area_blocks -
        (efs_create_super_block total ib).data_bitmap_blocks := by
  simp only [efs_create_super_block, BLOCK_BITS, BLOCK_SIZE, DISK_INODE_SIZE] at *
  set ia := (ib * (512 * 8) * 128 + 512 - 1) / 512 with hia
  set d := total - 1 - (ib + ia) with hd
  have hdb : (d + 512 * 8) / (512 * 8 + 1) ≤ d := by
    rw [Nat.div_le_iff_le_mul_add_pred (by norm_num)]
    omega
  have hdbeq : (d + 512 * 8) / (512 * 8 + 1) =
      (total - 1 - ib - ia + (4096 + 1) - 1) / (4096 + 1) := by
    congr 1
    omega
  refine ⟨by omega, hdbeq, by omega⟩

/-- C8 witness: the packer's parameters, 16 MiB image = 32768 blocks with one
inode-bitmap block. -/
theorem efs_create_super_block_spec_witness :
    1 + (efs_create_super_block 32768 1).inode_bitmap_blocks +
        (efs_create_super_block 32768 1).inode_area_blocks +
        (efs_create_super_block 32768 1).data_bitmap_blocks +
        (efs_create_super_block 32768 1).data_area_blocks = 32768 :=
  (efs_create_super_block_spec 32768 1 (by decide)).1


/-! ## C7 — `DiskInode::write_at` clipping -/

/-- The write loop of `DiskInode::write_at` writes exactly `endPos - start`
further bytes (induction on an upper bound of the remaining byte count). -/
theorem writeAtLoop_count (di : DiskInode) (buf : List Nat) :
    ∀ (n : Nat) (disk : Disk) (start endPos startBlock writeSize : Nat),
      endPos - start ≤ n →
      startBlock * BLOCK_SIZE ≤ start → start < (startBlock + 1) * BLOCK_SIZE →
      start < endPos →
      (writeAtLoop di disk buf start endPos startBlock writeSize).2 =
        writeSize + (endPos - start) := by
  intro n
  induction n with
  | zero =>
    intro disk start endPos sb ws h0 h1 h2 h3
    omega
  | succ n ih =>
    intro disk start endPos sb ws h0 h1 h2 h3
    rw [writeAtLoop]
    by_cases h : min ((sb + 1) * BLOCK_SIZE) endPos = endPos
    · simp only [dif_pos h]
      omega
    · simp only [dif_neg h]
      have hlt : (sb + 1) * BLOCK_SIZE < endPos := by
        by_contra hc
        push_neg at hc
        exact h (Nat.min_eq_right hc)
      have hmin : min ((sb + 1) * BLOCK_SIZE) endPos = (sb + 1) * BLOCK_SIZE :=
        Nat.min_eq_left (Nat.le_of_lt hlt)
      rw [hmin, ih _ ((sb + 1) * BLOCK_SIZE) endPos (sb + 1)
        (ws + ((sb + 1) * BLOCK_SIZE - start))
        (by simp only [BLOCK_SIZE] at *; omega)
        (by omega)
        (by simp only [BLOCK_SIZE] at *; omega)
        hlt]
      omega

/-- C7: `DiskInode::write_at(offset, buf)` leaves the inode (in particular
its `size` field) unchanged and returns `min(buf.len, size - offset)` written
bytes — 0 when `offset ≥ size`. -/
theorem disk_inode_write_at_spec (di : DiskInode) (disk : Disk) (offset : Nat)
    (buf : List Nat) :
    (DiskInode.write_at di disk offset buf).1 = di ∧
    (DiskInode.write_at di disk offset buf).2.2 = min buf.length (di.size - offset) := by
  unfold DiskInode.write_at
  by_cases hge : offset ≥ min (offset + buf.length) di.size
  · simp only [ge_iff_le, hge, if_true]
    exact ⟨by trivial, by omega⟩
  · simp only [ge_iff_le, hge, if_false]
    refine ⟨by trivial, ?_⟩
    have hdm := Nat.div_add_mod offset BLOCK_SIZE
    have hml : offset % BLOCK_SIZE < BLOCK_SIZE := Nat.mod_lt _ (by simp [BLOCK_SIZE])
    rw [writeAtLoop_count di buf (min (offset + buf.length) di.size - offset) disk offset
      (min (offset + buf.length) di.size) (offset / BLOCK_SIZE) 0
      (by omega)
      (by simp only [BLOCK_SIZE] at *; omega)
      (by simp only [BLOCK_SIZE] at *; omega)
      (by omega)]
    omega

/-! ## C9 — pipe ring buffer invariant -/

/-- Structural invariant of reachable ring-buffer states: both pointers stay
below 32, and the Full status implies the pointers coincide. -/
theorem pipeReachable_inv (rb : PipeRingBuffer) (h : PipeReachable rb) :
    rb.head < RING_BUFFER_SIZE ∧ rb.tail < RING_BUFFER_SIZE ∧
      (rb.status = RingBufferStatus.full → rb.head = rb.tail) := by
  induction h with
  | init =>
    refine ⟨?_, ?_, ?_⟩
    · simp [PipeRingBuffer.new, RING_BUFFER_SIZE]
    · simp [PipeRingBuffer.new, RING_BUFFER_SIZE]
    · intro hst
      simp [PipeRingBuffer.new] at hst
  | write rb b hr hw ih =>
    refine ⟨ih.1, Nat.mod_lt _ (by simp [RING_BUFFER_SIZE]), ?_⟩
    intro hst
    by_cases hc : rb.head = (rb.tail + 1) % RING_BUFFER_SIZE
    · simpa [PipeRingBuffer.write_byte] using hc
    · simp [PipeRingBuffer.write_byte, hc] at hst
  | read rb hr ha ih =>
    refine ⟨Nat.mod_lt _ (by simp [RING_BUFFER_SIZE]), ih.2.1, ?_⟩
    intro hst
    by_cases hc : (rb.head + 1) % RING_BUFFER_SIZE = rb.tail
    · simp [PipeRingBuffer.read_byte, hc] at hst
    · simp [PipeRingBuffer.read_byte, hc] at hst

/-- C9: in every ring-buffer state reachable from the initial empty state by
`write_byte` when not full and `read_byte` when not empty,
`available_read + available_write = 32`, with `available_read = 0` in the
Empty state and `available_write = 0` in the Full state. -/
theorem pipe_available_sum (rb : PipeRingBuffer) (h : PipeReachable rb) :
    rb.available_read + rb.available_write = RING_BUFFER_SIZE ∧
    (rb.status = RingBufferStatus.empty → rb.available_read = 0) ∧
    (rb.status = RingBufferStatus.full → rb.available_write = 0) := by
  obtain ⟨hh, ht, hf⟩ := pipeReachable_inv rb h
  simp only [RING_BUFFER_SIZE] at hh ht
  refine ⟨?_, ?_, ?_⟩
  · rcases hst : rb.status with _ | _ | _
    · have heq := hf hst
      have har : rb.available_read = 32 := by
        unfold PipeRingBuffer.available_read
        rw [hst, if_neg (by decide), if_neg (by omega)]
        simp only [RING_BUFFER_SIZE]
        omega
      have haw : rb.available_write = 0 := by
        unfold PipeRingBuffer.available_write
        rw [hst, if_pos rfl]
      rw [har, haw]
      rfl
    · have har : rb.available_read = 0 := by
        unfold PipeRingBuffer.available_read
        rw [hst, if_pos rfl]
      have haw : rb.available_write = 32 := by
        unfold PipeRingBuffer.available_write
        rw [hst, if_neg (by decide), har]
        rfl
      rw [har, haw]
      rfl
    · have har : rb.available_read ≤ 32 := by
        unfold PipeRingBuffer.available_read
        rw [hst, if_neg (by decide)]
        by_cases hc : rb.tail > rb.head
        · rw [if_pos hc]
          omega
        · rw [if_neg hc]
          simp only [RING_BUFFER_SIZE]
          omega
      unfold PipeRingBuffer.available_write
      rw [hst, if_neg (by decide)]
      simp only [RING_BUFFER_SIZE]
      omega
  · intro hst
    unfold PipeRingBuffer.available_read
    rw [hst, if_pos rfl]
  · intro hst
    unfold PipeRingBuffer.available_write
    rw [hst, if_pos rfl]

/-- C9 witness: the initial empty buffer is reachable and satisfies the
invariant. -/
theorem pipe_available_sum_witness :
    PipeRingBuffer.new.available_read + PipeRingBuffer.new.available_write =
      RING_BUFFER_SIZE :=
  (pipe_available_sum PipeRingBuffer.new PipeReachable.init).1

/-! ## C5 — blocking mutex unlock -/

/-- Task 0 takes the free mutex, then task 1 calls `lock` and blocks: the
wait queue holds task 1 (status `Blocking`), `locked = true`. -/
def mutexScenario : MutexBlockingState × SchedState :=
  let s0 : SchedState := { readyQueue := [], status := fun _ => TaskStatus.running }
  let l1 := MutexBlocking.lock { locked := false, waitQueue := [] } s0 0
  MutexBlocking.lock l1.1 l1.2 1

/-- C5 counterexample: in the two-task scenario, `unlock` moves the oldest
waiter (task 1) into the ready queue and leaves `locked = true`, but the
waiter's `task_status` stays `Blocking` — `unlock` never sets it to `Ready`
(`add_task` only pushes the handle), so the claim's "re-enqueues it as
Ready" is false at this input. -/
theorem mutex_unlock_waiter_not_ready :
    (MutexBlocking.unlock mutexScenario.1 mutexScenario.2).map
        (fun r => (r.1.locked, r.2.readyQueue, r.2.status 1)) =
      some (true, [1], TaskStatus.blocking) ∧
    TaskStatus.blocking ≠ TaskStatus.ready := by
  exact ⟨rfl, by decide⟩

/-- C5 (amended): `unlock` on a locked blocking mutex with a non-empty wait
queue dequeues the oldest (first-enqueued) waiter and appends it to the
scheduler's ready queue, leaving `locked = true` (ownership transfers
directly) and leaving every task's status field unchanged (the waiter stays
`Blocking` until the processor runs it); with an empty wait queue it sets
`locked = false`. -/
theorem mutex_blocking_unlock_spec (m : MutexBlockingState) (ks : SchedState)
    (hl : m.locked = true) :
    (∀ t rest, m.waitQueue = t :: rest →
      MutexBlocking.unlock m ks =
        some ({ m with waitQueue := rest },
              { readyQueue := ks.readyQueue ++ [t], status := ks.status })) ∧
    (m.waitQueue = [] →
      MutexBlocking.unlock m ks = some ({ m with locked := false }, ks)) := by
  constructor
  · intro t rest hq
    unfold MutexBlocking.unlock
    rw [if_pos hl, hq]
    rfl
  · intro hq
    unfold MutexBlocking.unlock
    rw [if_pos hl, hq]

/-- C5 witness: the amended theorem applied to the concrete two-task
scenario. -/
theorem mutex_blocking_unlock_spec_witness :
    MutexBlocking.unlock mutexScenario.1 mutexScenario.2 =
      some ({ mutexScenario.1 with waitQueue := [] },
            { readyQueue := mutexScenario.2.readyQueue ++ [1],
              status := mutexScenario.2.status }) :=
  (mutex_blocking_unlock_spec mutexScenario.1 mutexScenario.2 rfl).1 1 [] rfl

/-! ## C4 — `sys_waitpid` -/

/-- `find?` over `enumFrom` for a predicate on the elements alone: it yields
the first index (offset by `k`) whose element satisfies the predicate. -/
theorem enumFrom_find?_elem (q : ChildProc → Bool) :
    ∀ (l : List ChildProc) (k idx : Nat) (h : idx < l.length),
      q (l.get ⟨idx, h⟩) = true →
      (∀ j (hj : j < idx), q (l.get ⟨j, by omega⟩) = false) →
      (List.enumFrom k l).find? (fun ic => q ic.2) = some (k + idx, l.get ⟨idx, h⟩) := by
  intro l
  induction l with
  | nil =>
    intro k idx h
    simp at h
  | cons a t ih =>
    intro k idx h hq hmin
    cases idx with
    | zero =>
      simp only [List.enumFrom, List.get] at hq ⊢
      rw [List.find?_cons_of_pos _ (by simpa using hq)]
      simp
    | succ idx =>
      have ha : q a = false := by
        have := hmin 0 (Nat.succ_pos idx)
        simpa using this
      simp only [List.enumFrom]
      rw [List.find?_cons_of_neg _ (by simpa using ha)]
      have := ih (k + 1) idx (by simp only [List.length_cons] at h; omega)
        (by simpa using hq)
        (fun j hj => by
          have := hmin (j + 1) (by omega)
          simpa using this)
      have harith : k + 1 + idx = k + (idx + 1) := by omega
      rw [harith] at this
      exact this

/-- C4: `sys_waitpid(pid, exit_code_ptr)` returns −1 when no child matches
`pid` (for `pid = -1` this is precisely "no children at all"); when some
matching child is a zombie it removes the first such child, writes its exit
code through the user pointer and returns that child's pid (the removal
assertion `strong_count = 1` passing); otherwise returns −2 and changes
nothing. -/
theorem sys_waitpid_spec (pid : Int) (children : List ChildProc) :
    ((∀ c ∈ children, waitMatches pid c = false) →
      sys_waitpid pid children = some (-1, children, none)) ∧
    (∀ (idx : Nat) (h : idx < children.length),
      (children.get ⟨idx, h⟩).zombie = true →
      waitMatches pid (children.get ⟨idx, h⟩) = true →
      (∀ j (hj : j < idx), ((children.get ⟨j, by omega⟩).zombie &&
        waitMatches pid (children.get ⟨j, by omega⟩)) = false) →
      (children.get ⟨idx, h⟩).strong_count = 1 →
      sys_waitpid pid children =
        some (((children.get ⟨idx, h⟩).pid : Int), children.eraseIdx idx,
          some (children.get ⟨idx, h⟩).exit_code)) ∧
    ((∃ c ∈ children, waitMatches pid c = true) →
      (∀ c ∈ children, c.zombie = true → waitMatches pid c = false) →
      sys_waitpid pid children = some (-2, children, none)) := by
  refine ⟨?_, ?_, ?_⟩
  · intro hnone
    unfold sys_waitpid
    rw [if_pos]
    rw [Option.isNone_iff_eq_none, List.find?_eq_none]
    intro c hc
    simp [hnone c hc]
  · intro idx h hz hm hfirst hsc
    unfold sys_waitpid
    rw [if_neg]
    · have hfind := enumFrom_find?_elem (fun c => c.zombie && waitMatches pid c) children 0 idx h
        (by simp only [Bool.and_eq_true]
            exact ⟨by simpa using hz, by simpa using hm⟩) hfirst
      simp only [List.enum] at *
      rw [hfind]
      simp only [Nat.zero_add, if_pos hsc]
    · simp only [Option.isNone_iff_eq_none, List.find?_eq_none]
      push_neg
      refine ⟨children.get ⟨idx, h⟩, List.get_mem _ _ _, by simpa using hm⟩
  · intro hsome hnoz
    unfold sys_waitpid
    rw [if_neg]
    · have hfind : children.enum.find? (fun ic => ic.2.zombie && waitMatches pid ic.2) = none := by
        rw [List.find?_eq_none]
        intro x hx
        have hmem : x.2 ∈ children := by
          have hx2 := List.mem_enum_iff_getElem?.mp hx
          exact List.getElem?_mem hx2
        simp only [Bool.and_eq_true, not_and]
        intro hzx
        simp [hnoz x.2 hmem hzx]
      rw [hfind]
    · simp only [Option.isNone_iff_eq_none, List.find?_eq_none]
      push_neg
      obtain ⟨c, hc, hm⟩ := hsome
      exact ⟨c, hc, by simp [hm]⟩

/-- C4 witness: one zombie child with pid 7, exit code 42, strong count 1. -/
theorem sys_waitpid_spec_witness :
    sys_waitpid 7 [⟨7, true, 42, 1⟩] = some (7, [], some 42) :=
  (sys_waitpid_spec 7 [⟨7, true, 42, 1⟩]).2.1 0 (by decide) rfl rfl
    (fun j hj => absurd hj (Nat.not_lt_zero j)) rfl

/-! ## Shared list and loop lemmas for the EasyFS index proofs -/

theorem listGetD_drop (l : List Nat) (m j : Nat) :
    (l.drop m).getD j 0 = l.getD (m + j) 0 := by
  simp [List.getD, List.getElem?_drop]

theorem listDrop_cons (l : List Nat) (m : Nat) (h : m < l.length) :
    l.drop m = l.getD m 0 :: l.drop (m + 1) := by
  rw [List.drop_eq_getElem_cons h, List.getD_eq_getElem _ _ h]

theorem range_map_getD (l : List Nat) (m : Nat) (h : m ≤ l.length) :
    (List.range m).map (fun j => l.getD j 0) = l.take m := by
  apply List.ext_getElem
  · simp [h]
  · intro i h1 h2
    simp only [List.getElem_map, List.getElem_range, List.getElem_take]
    have hi : i < l.length := by
      simp only [List.length_map, List.length_range] at h1
      omega
    rw [List.getD_eq_getElem _ _ hi]

/-- `fillEntries f current stop blocks` (with enough ids): fills slots
`current..stop` from `blocks` in order, returns `stop` and the leftover. -/
theorem fillEntries_spec :
    ∀ (k : Nat) (f : Nat → Nat) (current stop : Nat) (blocks : List Nat),
      stop - current = k → current ≤ stop → stop - current ≤ blocks.length →
      fillEntries f current stop blocks =
        (fun j => if current ≤ j ∧ j < stop then blocks.getD (j - current) 0 else f j,
         stop, blocks.drop (stop - current)) := by
  intro k
  induction k with
  | zero =>
    intro f current stop blocks h0 h1 h2
    have hcs : current = stop := by omega
    rw [fillEntries.eq_def]
    rw [dif_neg (by omega)]
    subst hcs
    simp only [List.drop_zero, h0]
    refine Prod.ext ?_ rfl
    funext j
    simp only []
    rw [if_neg (by omega)]
  | succ k ih =>
    intro f current stop blocks h0 h1 h2
    have hlt : current < stop := by omega
    rw [fillEntries.eq_def]
    rw [dif_pos hlt]
    rcases blocks with _ | ⟨b, rest⟩
    · exfalso
      simp only [List.length_nil] at h2
      omega
    · show fillEntries (setIdx f current b) (current + 1) stop rest =
        (fun j => if current ≤ j ∧ j < stop then (b :: rest).getD (j - current) 0 else f j,
         stop, List.drop (stop - current) (b :: rest))
      rw [ih (setIdx f current b) (current + 1) stop rest (by omega) (by omega)
        (by simp only [List.length_cons] at h2 ⊢; omega)]
      refine Prod.ext ?_ ?_
      · funext j
        simp only []
        by_cases hj : current ≤ j ∧ j < stop
        · rw [if_pos hj]
          by_cases hj2 : current + 1 ≤ j
          · rw [if_pos ⟨hj2, hj.2⟩]
            have : j - current = (j - (current + 1)) + 1 := by omega
            rw [this]
            simp
          · have hjc : j = current := by omega
            rw [if_neg (by omega), hjc]
            simp [setIdx]
        · rw [if_neg hj, if_neg (by omega)]
          simp only [setIdx]
          rw [if_neg (by omega)]
      · simp only []
        have : stop - current = (stop - (current + 1)) + 1 := by omega
        rw [this]
        rfl

/-- `drainEntries f current stop`: pushes `f current, …, f (stop-1)` in
order and zeroes those slots. -/
theorem drainEntries_spec :
    ∀ (k : Nat) (f : Nat → Nat) (current stop : Nat),
      stop - current = k → current ≤ stop →
      drainEntries f current stop =
        (fun j => if current ≤ j ∧ j < stop then 0 else f j,
         (List.range' current (stop - current)).map f) := by
  intro k
  induction k with
  | zero =>
    intro f current stop h0 h1
    have el : current = stop := by omega
    rw [drainEntries]
    rw [dif_neg (by omega)]
    subst el
    simp only [h0, List.range'_zero, List.map_nil]
    refine Prod.ext ?_ rfl
    funext j
    simp only []
    rw [if_neg (by omega)]
  | succ k ih =>
    intro f current stop h0 h1
    have hlt : current < stop := by omega
    rw [drainEntries]
    rw [dif_pos hlt]
    rw [ih (setIdx f current 0) (current + 1) stop (by omega) (by omega)]
    simp only []
    refine Prod.ext ?_ ?_
    · funext j
      simp only []
      by_cases hj : current ≤ j ∧ j < stop
      · rw [if_pos hj]
        by_cases hj2 : current + 1 ≤ j
        · rw [if_pos ⟨hj2, hj.2⟩]
        · have hjc : j = current := by omega
          rw [if_neg (by omega), hjc]
          simp [setIdx]
      · rw [if_neg hj, if_neg (by omega)]
        simp only [setIdx]
        rw [if_neg (by omega)]
    · simp only []
      have : stop - current = (stop - (current + 1)) + 1 := by omega
      rw [this, List.range'_succ, List.map_cons]
      congr 1
      apply List.map_congr_left
      intro x hx
      have hxr := List.mem_range'.mp hx
      simp only [setIdx]
      rw [if_neg (by omega)]

theorem diskWriteCells_other (q : Nat) :
    ∀ (vals : List Nat) (disk : Disk) (off : Nat) (p : Nat), p ≠ q →
      diskWriteCells disk q off vals p = disk p := by
  intro vals
  induction vals with
  | nil => intro disk off p hp; rfl
  | cons v rest ih =>
    intro disk off p hp
    simp only [diskWriteCells]
    rw [ih _ _ _ hp]
    simp only [diskSetIdx]
    rw [if_neg hp]

theorem diskWriteCells_same (q : Nat) :
    ∀ (vals : List Nat) (disk : Disk) (off c : Nat),
      diskWriteCells disk q off vals q c =
        if off ≤ c ∧ c < off + vals.length then vals.getD (c - off) 0 else disk q c := by
  intro vals
  induction vals with
  | nil =>
    intro disk off c
    simp only [diskWriteCells, List.length_nil]
    rw [if_neg (by omega)]
  | cons v rest ih =>
    intro disk off c
    simp only [diskWriteCells, List.length_cons]
    rw [ih]
    simp only [diskSetIdx, setIdx, eq_self_iff_true, if_true]
    by_cases h1 : off + 1 ≤ c ∧ c < off + 1 + rest.length
    · rw [if_pos h1, if_pos (by omega)]
      have hc : c - off = (c - (off + 1)) + 1 := by omega
      rw [hc]
      simp
    · rw [if_neg h1]
      by_cases h2 : c = off
      · rw [if_pos h2, if_pos (by omega), h2]
        simp
      · rw [if_neg h2, if_neg (by omega)]

theorem listSlice_getD (l : List Nat) (off len c : Nat) (h : c < len) :
    (listSlice l off len).getD c 0 = l.getD (off + c) 0 := by
  rw [List.getD_eq_getElem?_getD, List.getD_eq_getElem?_getD]
  simp only [listSlice, List.getElem?_take, List.getElem?_drop]
  rw [if_pos h]

/-- One unfolding step of the indirect2 fill loop. -/
theorem fillIndirect2_succ (fuel : Nat) (ind2 : Block) (disk : Disk)
    (a0 b0 a1 b1 : Nat) (bl : List Nat) :
    fillIndirect2 (fuel + 1) ind2 disk a0 b0 a1 b1 bl =
      if a0 < a1 ∨ (a0 = a1 ∧ b0 < b1) then
        let step : Block × List Nat :=
          if b0 = 0 then
            match bl with
            | b :: rest => (setIdx ind2 a0 b, rest)
            | [] => (ind2, [])
          else
            (ind2, bl)
        let ind2p := step.1
        let entryStep : Nat × List Nat :=
          match step.2 with
          | b :: rest => (b, rest)
          | [] => (0, [])
        let diskp := diskSetIdx disk (ind2p a0) b0 entryStep.1
        if b0 + 1 = INODE_INDIRECT1_COUNT then
          fillIndirect2 fuel ind2p diskp (a0 + 1) 0 a1 b1 entryStep.2
        else
          fillIndirect2 fuel ind2p diskp a0 (b0 + 1) a1 b1 entryStep.2
      else
        (ind2, disk, bl) := rfl

theorem fillIndirect2_stop (fuel : Nat) (ind2 : Block) (disk : Disk)
    (a1 b1 : Nat) (bl : List Nat) :
    fillIndirect2 fuel ind2 disk a1 b1 a1 b1 bl = (ind2, disk, bl) := by
  cases fuel with
  | zero => rfl
  | succ fuel =>
    rw [fillIndirect2_succ]
    rw [if_neg (by omega)]

/-- One iteration at a group boundary (`b0 = 0`): consume the meta id and
the first entry. -/
theorem fillIndirect2_step0 (fuel : Nat) (ind2 : Block) (disk : Disk)
    (a a1 b1 m e : Nat) (rest2 : List Nat)
    (hguard : a < a1 ∨ (a = a1 ∧ 0 < b1)) :
    fillIndirect2 (fuel + 1) ind2 disk a 0 a1 b1 (m :: e :: rest2) =
      fillIndirect2 fuel (setIdx ind2 a m) (diskSetIdx disk (setIdx ind2 a m a) 0 e)
        a 1 a1 b1 rest2 := by
  rw [fillIndirect2_succ, if_pos hguard]
  rfl

/-- One iteration inside a group (`1 ≤ b0`, no wrap): consume one entry. -/
theorem fillIndirect2_step1 (fuel : Nat) (ind2 : Block) (disk : Disk)
    (a b a1 b1 e : Nat) (rest : List Nat)
    (hguard : a < a1 ∨ (a = a1 ∧ b < b1)) (hb : ¬ b = 0)
    (hbw : ¬ b + 1 = INODE_INDIRECT1_COUNT) :
    fillIndirect2 (fuel + 1) ind2 disk a b a1 b1 (e :: rest) =
      fillIndirect2 fuel ind2 (diskSetIdx disk (ind2 a) b e) a (b + 1) a1 b1 rest := by
  rw [fillIndirect2_succ, if_pos hguard]
  simp only [if_neg hb, if_neg hbw]

/-- The last iteration of a group (`b0 = 127`): consume one entry and wrap
to `(a0 + 1, 0)`. -/
theorem fillIndirect2_step_wrap (fuel : Nat) (ind2 : Block) (disk : Disk)
    (a b a1 b1 e : Nat) (rest : List Nat)
    (hguard : a < a1 ∨ (a = a1 ∧ b < b1)) (hb : ¬ b = 0)
    (hbw : b + 1 = INODE_INDIRECT1_COUNT) :
    fillIndirect2 (fuel + 1) ind2 disk a b a1 b1 (e :: rest) =
      fillIndirect2 fuel ind2 (diskSetIdx disk (ind2 a) b e) (a + 1) 0 a1 b1 rest := by
  rw [fillIndirect2_succ, if_pos hguard]
  simp only [if_neg hb, if_pos hbw]

/-- The indirect2 loop from `(a, b)` with `1 ≤ b` inside a full group
(`a < a1`): consumes `k = 128 - b` ids, writes them into cells `b..127`
of the current group's indirect1 block `ind2 a`, and continues at
`(a + 1, 0)`. -/
theorem fillIndirect2_entries :
    ∀ (k : Nat) (ind2 : Block) (disk : Disk) (a b a1 b1 : Nat) (bl : List Nat) (f : Nat),
      b + k = 128 → 1 ≤ b → b ≤ 127 → a < a1 → k ≤ bl.length →
      fillIndirect2 (f + k) ind2 disk a b a1 b1 bl =
        fillIndirect2 f ind2 (diskWriteCells disk (ind2 a) b (bl.take k)) (a + 1) 0 a1 b1
          (bl.drop k) := by
  intro k
  induction k with
  | zero =>
    intro ind2 disk a b a1 b1 bl f h0 h1 h2 h3 h4
    omega
  | succ k ih =>
    intro ind2 disk a b a1 b1 bl f h0 h1 h2 h3 h4
    rcases bl with _ | ⟨e, rest⟩
    · exfalso
      simp only [List.length_nil] at h4
      omega
    have hfs : f + (k + 1) = (f + k) + 1 := by omega
    rw [hfs]
    by_cases hb : b + 1 = INODE_INDIRECT1_COUNT
    · have hk0 : k = 0 := by
        simp only [INODE_INDIRECT1_COUNT, BLOCK_SIZE] at hb
        omega
      subst hk0
      rw [fillIndirect2_step_wrap (f + 0) ind2 disk a b a1 b1 e rest
        (Or.inl h3) (by omega) hb]
      simp only [List.take_succ_cons, List.take_zero, List.drop_succ_cons, List.drop_zero]
      rfl
    · rw [fillIndirect2_step1 (f + k) ind2 disk a b a1 b1 e rest
        (Or.inl h3) (by omega) hb]
      rw [ih ind2 (diskSetIdx disk (ind2 a) b e) a (b + 1) a1 b1 rest f
        (by omega) (by omega)
        (by simp only [INODE_INDIRECT1_COUNT, BLOCK_SIZE] at hb; omega) h3
        (by simp only [List.length_cons] at h4; omega)]
      rfl

/-- The indirect2 loop at a group boundary `(a, 0)` with `a < a1`: consumes
the group's indirect1 meta id `bl[0]` (stored into cell `a` of the indirect2
block) and the 128 data ids `bl[1..129]` (stored into the fresh indirect1
block), then continues at `(a + 1, 0)`. -/
theorem fillIndirect2_group (ind2 : Block) (disk : Disk) (a a1 b1 : Nat)
    (bl : List Nat) (f : Nat) (h3 : a < a1) (hlen : 129 ≤ bl.length) :
    fillIndirect2 (f + 128) ind2 disk a 0 a1 b1 bl =
      fillIndirect2 f (setIdx ind2 a (bl.getD 0 0))
        (diskWriteCells disk (bl.getD 0 0) 0 (listSlice bl 1 INODE_INDIRECT1_COUNT))
        (a + 1) 0 a1 b1 (bl.drop 129) := by
  rcases bl with _ | ⟨m, rest⟩
  · simp at hlen
  rcases rest with _ | ⟨e, rest2⟩
  · simp at hlen
  have hsi : setIdx ind2 a m a = m := by
    simp [setIdx]
  have hfs : f + 128 = (f + 127) + 1 := by omega
  rw [hfs]
  rw [fillIndirect2_step0 (f + 127) ind2 disk a a1 b1 m e rest2 (Or.inl h3)]
  rw [hsi]
  rw [fillIndirect2_entries 127 (setIdx ind2 a m) (diskSetIdx disk m 0 e) a 1 a1 b1 rest2 f
    (by omega) (by omega) (by omega) h3
    (by simp only [List.length_cons] at hlen; omega)]
  rw [hsi]
  have hslice : listSlice (m :: e :: rest2) 1 INODE_INDIRECT1_COUNT = e :: rest2.take 127 := by
    simp only [INODE_INDIRECT1_COUNT, BLOCK_SIZE, listSlice, List.drop_succ_cons,
      List.drop_zero]
    norm_num
  rw [hslice]
  have hdrop : (m :: e :: rest2).drop 129 = rest2.drop 127 := by
    rw [List.drop_succ_cons, List.drop_succ_cons]
  rw [hdrop]
  rfl

/-- `g` consecutive full groups of the indirect2 fill loop. -/
theorem fillIndirect2_groups :
    ∀ (g : Nat) (ind2 : Block) (disk : Disk) (a a1 b1 : Nat) (bl : List Nat) (f : Nat),
      a + g ≤ a1 → 129 * g ≤ bl.length →
      fillIndirect2 (f + 128 * g) ind2 disk a 0 a1 b1 bl =
        fillIndirect2 f (buildInd2 ind2 bl a g) (buildGroups disk bl g) (a + g) 0 a1 b1
          (bl.drop (129 * g)) := by
  intro g
  induction g with
  | zero =>
    intro ind2 disk a a1 b1 bl f h1 h2
    simp [buildInd2, buildGroups]
  | succ g ih =>
    intro ind2 disk a a1 b1 bl f h1 h2
    have hfs : f + 128 * (g + 1) = (f + 128 * g) + 128 := by omega
    rw [hfs]
    rw [fillIndirect2_group ind2 disk a a1 b1 bl (f + 128 * g) (by omega) (by omega)]
    rw [ih (setIdx ind2 a (bl.getD 0 0))
      (diskWriteCells disk (bl.getD 0 0) 0 (listSlice bl 1 INODE_INDIRECT1_COUNT))
      (a + 1) a1 b1 (bl.drop 129) f (by omega)
      (by simp only [List.length_drop]; omega)]
    rw [List.drop_drop]
    have h129 : 129 + 129 * g = 129 * (g + 1) := by omega
    have haa : a + 1 + g = a + (g + 1) := by omega
    rw [h129, haa]
    rfl

/-- The indirect2 loop inside the final partial group (`a0 = a1`,
`1 ≤ b ≤ b1 ≤ 127`): consumes `k = b1 - b` ids into cells `b..b1-1` of
`ind2 a1`, then the loop guard fails and the loop returns. -/
theorem fillIndirect2_last_entries :
    ∀ (k : Nat) (ind2 : Block) (disk : Disk) (a1 b b1 : Nat) (bl : List Nat) (f : Nat),
      b + k = b1 → 1 ≤ b → b1 ≤ 127 → k ≤ bl.length →
      fillIndirect2 (f + k) ind2 disk a1 b a1 b1 bl =
        (ind2, diskWriteCells disk (ind2 a1) b (bl.take k), bl.drop k) := by
  intro k
  induction k with
  | zero =>
    intro ind2 disk a1 b b1 bl f h0 h1 h2 h4
    have hb : b = b1 := by omega
    subst hb
    rw [fillIndirect2_stop]
    simp [diskWriteCells]
  | succ k ih =>
    intro ind2 disk a1 b b1 bl f h0 h1 h2 h4
    rcases bl with _ | ⟨e, rest⟩
    · exfalso
      simp only [List.length_nil] at h4
      omega
    have hfs : f + (k + 1) = (f + k) + 1 := by omega
    rw [hfs]
    rw [fillIndirect2_step1 (f + k) ind2 disk a1 b a1 b1 e rest
      (Or.inr ⟨rfl, by omega⟩) (by omega)
      (by simp only [INODE_INDIRECT1_COUNT, BLOCK_SIZE]; omega)]
    rw [ih ind2 (diskSetIdx disk (ind2 a1) b e) a1 (b + 1) b1 rest f
      (by omega) (by omega) h2 (by simp only [List.length_cons] at h4; omega)]
    rfl

/-- The final partial group of the indirect2 fill loop (`0 < b1`): consumes
the group meta id `bl[0]` into cell `a1` of the indirect2 block and the
`b1` remaining data ids into its indirect1 block, then returns. -/
theorem fillIndirect2_last_group (ind2 : Block) (disk : Disk) (a1 b1 : Nat)
    (bl : List Nat) (f : Nat) (hb1 : 1 ≤ b1) (hb2 : b1 ≤ 127)
    (hlen : 1 + b1 ≤ bl.length) :
    fillIndirect2 (f + (1 + b1)) ind2 disk a1 0 a1 b1 bl =
      (setIdx ind2 a1 (bl.getD 0 0),
       diskWriteCells disk (bl.getD 0 0) 0 (listSlice bl 1 b1),
       bl.drop (1 + b1)) := by
  rcases bl with _ | ⟨m, rest⟩
  · exfalso
    simp only [List.length_nil] at hlen
    omega
  rcases rest with _ | ⟨e, rest2⟩
  · exfalso
    simp only [List.length_cons, List.length_nil] at hlen
    omega
  have hsi : setIdx ind2 a1 m a1 = m := by
    simp [setIdx]
  have hfs : f + (1 + b1) = (f + b1) + 1 := by omega
  rw [hfs]
  rw [fillIndirect2_step0 (f + b1) ind2 disk a1 a1 b1 m e rest2 (Or.inr ⟨rfl, by omega⟩)]
  rw [hsi]
  have hstep : fillIndirect2 (f + b1) (setIdx ind2 a1 m) (diskSetIdx disk m 0 e)
      a1 1 a1 b1 (e :: rest2).tail = (setIdx ind2 a1 m,
        diskWriteCells (diskSetIdx disk m 0 e) m 1 (rest2.take (b1 - 1)),
        rest2.drop (b1 - 1)) := by
    have hf2 : f + b1 = (f + 1) + (b1 - 1) := by omega
    rw [List.tail_cons, hf2]
    rw [fillIndirect2_last_entries (b1 - 1) (setIdx ind2 a1 m) (diskSetIdx disk m 0 e)
      a1 1 b1 rest2 (f + 1) (by omega) (by omega) hb2
      (by simp only [List.length_cons] at hlen; omega)]
    rw [hsi]
  rw [List.tail_cons] at hstep
  rw [hstep]
  have hslice : listSlice (m :: e :: rest2) 1 b1 = e :: rest2.take (b1 - 1) := by
    simp only [listSlice, List.drop_succ_cons, List.drop_zero]
    rcases b1 with _ | b1p
    · omega
    · rw [List.take_succ_cons]
      simp
  rw [hslice]
  have hdrop : (m :: e :: rest2).drop (1 + b1) = rest2.drop (b1 - 1) := by
    have : 1 + b1 = (b1 - 1) + 1 + 1 := by omega
    rw [this, List.drop_succ_cons, List.drop_succ_cons]
  rw [hdrop]
  rfl

theorem buildInd2_spec :
    ∀ (g : Nat) (ind2 : Block) (bl : List Nat) (a x : Nat),
      buildInd2 ind2 bl a g x =
        if a ≤ x ∧ x < a + g then bl.getD (129 * (x - a)) 0 else ind2 x := by
  intro g
  induction g with
  | zero =>
    intro ind2 bl a x
    simp only [buildInd2]
    rw [if_neg (by omega)]
  | succ g ih =>
    intro ind2 bl a x
    simp only [buildInd2]
    rw [ih]
    by_cases h1 : a + 1 ≤ x ∧ x < a + 1 + g
    · rw [if_pos h1, if_pos (by omega)]
      rw [listGetD_drop]
      congr 1
      omega
    · rw [if_neg h1]
      simp only [setIdx]
      by_cases h2 : x = a
      · rw [if_pos h2, if_pos (by omega), h2]
        simp
      · rw [if_neg h2, if_neg (by omega)]

theorem buildGroups_frame :
    ∀ (g : Nat) (disk : Disk) (bl : List Nat) (q : Nat),
      (∀ y, y < g → q ≠ bl.getD (129 * y) 0) →
      buildGroups disk bl g q = disk q := by
  intro g
  induction g with
  | zero =>
    intro disk bl q hq
    rfl
  | succ g ih =>
    intro disk bl q hq
    simp only [buildGroups]
    rw [ih _ _ _ (fun y hy => by
      have hthis := hq (y + 1) (by omega)
      rw [listGetD_drop]
      have harith : 129 + 129 * y = 129 * (y + 1) := by omega
      rw [harith]
      exact hthis)]
    have h0 := hq 0 (by omega)
    rw [Nat.mul_zero] at h0
    exact diskWriteCells_other _ _ _ _ _ h0

/-- Content of a full group's indirect1 block after `buildGroups`, provided
the later groups use different meta ids. -/
theorem buildGroups_group :
    ∀ (g : Nat) (disk : Disk) (bl : List Nat) (x c : Nat),
      x < g → c < 128 → 129 * g ≤ bl.length →
      (∀ y, x < y → y < g → bl.getD (129 * y) 0 ≠ bl.getD (129 * x) 0) →
      buildGroups disk bl g (bl.getD (129 * x) 0) c = bl.getD (129 * x + 1 + c) 0 := by
  intro g
  induction g with
  | zero =>
    intro disk bl x c h1
    omega
  | succ g ih =>
    intro disk bl x c h1 h2 h3 h4
    rcases x with _ | x
    · simp only [buildGroups, Nat.mul_zero]
      rw [buildGroups_frame g _ _ _ (fun y hy => by
        have hne := h4 (y + 1) (by omega) (by omega)
        rw [Nat.mul_zero] at hne
        rw [listGetD_drop]
        have harith : 129 + 129 * y = 129 * (y + 1) := by omega
        rw [harith]
        exact Ne.symm hne)]
      rw [diskWriteCells_same]
      have hlenslice : (listSlice bl 1 INODE_INDIRECT1_COUNT).length = 128 := by
        simp only [listSlice, List.length_take, List.length_drop,
          INODE_INDIRECT1_COUNT, BLOCK_SIZE]
        omega
      rw [hlenslice, if_pos (by omega)]
      rw [listSlice_getD _ _ _ _ (by simp only [INODE_INDIRECT1_COUNT, BLOCK_SIZE]; omega)]
      congr 1
    · simp only [buildGroups]
      have hx : 129 * (x + 1) = 129 + 129 * x := by omega
      have hgd : bl.getD (129 * (x + 1)) 0 = (bl.drop 129).getD (129 * x) 0 := by
        rw [listGetD_drop, hx]
      rw [hgd]
      rw [ih _ _ x c (by omega) h2 (by simp only [List.length_drop]; omega)
        (fun y hy1 hy2 => by
          have hne := h4 (y + 1) (by omega) (by omega)
          rw [listGetD_drop, listGetD_drop]
          have ha1 : 129 + 129 * y = 129 * (y + 1) := by omega
          have ha2 : 129 + 129 * x = 129 * (x + 1) := by omega
          rw [ha1, ha2]
          exact hne)]
      rw [listGetD_drop]
      congr 1
      omega

theorem nodup_getD_ne (bs : List Nat) (hnd : bs.Nodup) (i j : Nat)
    (hi : i < bs.length) (hj : j < bs.length) (hij : i ≠ j) :
    bs.getD i 0 ≠ bs.getD j 0 := by
  rw [List.getD_eq_getElem _ _ hi, List.getD_eq_getElem _ _ hj]
  intro hEq
  exact hij (hnd.getElem_inj_iff.mp hEq)

/-- Closed form of `DiskInode::total_blocks`. -/
theorem total_blocks_eq (S : Nat) :
    DiskInode.total_blocks S =
      (if DiskInode.dataBlocksOf S ≤ 28 then DiskInode.dataBlocksOf S
       else if DiskInode.dataBlocksOf S ≤ 156 then DiskInode.dataBlocksOf S + 1
       else DiskInode.dataBlocksOf S + 2 + (DiskInode.dataBlocksOf S - 156 + 127) / 128) := by
  simp only [DiskInode.total_blocks, DIRECT_BOUND, INODE_DIRECT_COUNT, INDIRECT1_BOUND,
    INODE_INDIRECT1_COUNT, BLOCK_SIZE]
  split_ifs <;> omega

/-- `increase_size` from an empty inode, all data in the direct region. -/
theorem increase_size_from_zero_small (di : DiskInode) (disk : Disk) (S : Nat)
    (bs : List Nat) (hsz : di.size = 0) (hn : DiskInode.dataBlocksOf S ≤ 28)
    (hlen : DiskInode.dataBlocksOf S ≤ bs.length) :
    DiskInode.increase_size di disk S bs =
      ({ di with
          size := S
          direct := fun j =>
            if j < DiskInode.dataBlocksOf S then bs.getD j 0 else di.direct j },
       disk) := by
  have hc : di.data_blocks = 0 := by
    simp [DiskInode.data_blocks, hsz, DiskInode.dataBlocksOf, BLOCK_SIZE]
  simp only [DiskInode.increase_size, hc]
  have hmin : min (DiskInode.dataBlocksOf S) INODE_DIRECT_COUNT = DiskInode.dataBlocksOf S := by
    simp only [INODE_DIRECT_COUNT]
    omega
  rw [hmin]
  rw [fillEntries_spec (DiskInode.dataBlocksOf S) di.direct 0 (DiskInode.dataBlocksOf S) bs
    (by omega) (by omega) (by omega)]
  simp only []
  rw [if_pos (by simp only [INODE_DIRECT_COUNT]; omega)]
  congr 1
  congr 1
  funext j
  simp only [Nat.zero_le, true_and, Nat.sub_zero]

/-- `increase_size` from an empty inode, data reaching into the indirect1
region. -/
theorem increase_size_from_zero_med (di : DiskInode) (disk : Disk) (S : Nat)
    (bs : List Nat) (hsz : di.size = 0) (h1 : 28 < DiskInode.dataBlocksOf S)
    (h2 : DiskInode.dataBlocksOf S ≤ 156)
    (hlen : DiskInode.dataBlocksOf S + 1 ≤ bs.length) :
    DiskInode.increase_size di disk S bs =
      ({ di with
          size := S
          direct := fun j => if j < 28 then bs.getD j 0 else di.direct j
          indirect1 := bs.getD 28 0 },
       diskSet disk (bs.getD 28 0)
         (fun j => if j < DiskInode.dataBlocksOf S - 28 then bs.getD (29 + j) 0
           else disk (bs.getD 28 0) j)) := by
  have hc : di.data_blocks = 0 := by
    simp [DiskInode.data_blocks, hsz, DiskInode.dataBlocksOf, BLOCK_SIZE]
  simp only [DiskInode.increase_size, hc]
  have hmin : min (DiskInode.dataBlocksOf S) INODE_DIRECT_COUNT = 28 := by
    simp only [INODE_DIRECT_COUNT]
    omega
  rw [hmin]
  rw [fillEntries_spec 28 di.direct 0 28 bs (by omega) (by omega) (by omega)]
  simp only []
  rw [if_neg (by simp only [INODE_DIRECT_COUNT]; omega)]
  rw [listDrop_cons bs 28 (by omega)]
  have h28t : ((28 : Nat) = INODE_DIRECT_COUNT) = True := by
    simp [INODE_DIRECT_COUNT]
  simp only [h28t, if_true, show (28 : Nat) + 1 = 29 from rfl]
  simp only [Nat.sub_zero]
  have hmin2 : min (DiskInode.dataBlocksOf S - INODE_DIRECT_COUNT) INODE_INDIRECT1_COUNT =
      DiskInode.dataBlocksOf S - 28 := by
    simp only [INODE_DIRECT_COUNT, INODE_INDIRECT1_COUNT, BLOCK_SIZE]
    omega
  rw [hmin2]
  rw [fillEntries_spec (DiskInode.dataBlocksOf S - 28) (disk (bs.getD 28 0))
    (28 - INODE_DIRECT_COUNT) (DiskInode.dataBlocksOf S - 28) (bs.drop 29)
    (by simp only [INODE_DIRECT_COUNT]; omega) (by simp only [INODE_DIRECT_COUNT]; omega)
    (by simp only [List.length_drop]; omega)]
  simp only []
  rw [if_pos (by simp only [INODE_DIRECT_COUNT, INODE_INDIRECT1_COUNT, BLOCK_SIZE]; omega)]
  congr 1
  · congr 1
    funext j
    simp only [Nat.zero_le, true_and, Nat.sub_zero]
  · funext j c
    simp only [diskSet]
    by_cases hq : j = bs.getD 28 0
    · rw [if_pos hq, if_pos hq]
      simp only [INODE_DIRECT_COUNT, Nat.sub_self, Nat.zero_le, true_and, Nat.sub_zero]
      by_cases hc2 : c < DiskInode.dataBlocksOf S - 28
      · rw [if_pos hc2, if_pos hc2, listGetD_drop]
      · rw [if_neg hc2, if_neg hc2]
    · rw [if_neg hq, if_neg hq]

set_option maxRecDepth 4096 in
/-- `increase_size` from an empty inode, data reaching into the indirect2
region: closed form of the result. -/
theorem increase_size_from_zero_large_eq (di : DiskInode) (disk : Disk) (S : Nat)
    (bs : List Nat) (hsz : di.size = 0) (h1 : 156 < DiskInode.dataBlocksOf S)
    (hcap : DiskInode.dataBlocksOf S ≤ INDIRECT2_BOUND)
    (hlen : DiskInode.total_blocks S ≤ bs.length) :
    DiskInode.increase_size di disk S bs =
      ({ di with
          size := S
          direct := fun j => if j < 28 then bs.getD j 0 else di.direct j
          indirect1 := bs.getD 28 0
          indirect2 := bs.getD 157 0 },
       (fun disk1 =>
         (fun grp ind2a =>
           if (DiskInode.dataBlocksOf S - 156) % 128 = 0 then
             diskSet grp (bs.getD 157 0) ind2a
           else
             diskSet
               (diskWriteCells grp
                 ((bs.drop 158).getD (129 * ((DiskInode.dataBlocksOf S - 156) / 128)) 0) 0
                 (listSlice ((bs.drop 158).drop (129 * ((DiskInode.dataBlocksOf S - 156) / 128)))
                   1 ((DiskInode.dataBlocksOf S - 156) % 128)))
               (bs.getD 157 0)
               (setIdx ind2a ((DiskInode.dataBlocksOf S - 156) / 128)
                 ((bs.drop 158).getD (129 * ((DiskInode.dataBlocksOf S - 156) / 128)) 0)))
         (buildGroups disk1 (bs.drop 158) ((DiskInode.dataBlocksOf S - 156) / 128))
         (buildInd2 (disk1 (bs.getD 157 0)) (bs.drop 158) 0
           ((DiskInode.dataBlocksOf S - 156) / 128)))
       (diskSet disk (bs.getD 28 0)
         (fun j => if j < 128 then bs.getD (29 + j) 0 else disk (bs.getD 28 0) j))) := by
  have hc : di.data_blocks = 0 := by
    simp [DiskInode.data_blocks, hsz, DiskInode.dataBlocksOf, BLOCK_SIZE]
  have hcap' : DiskInode.dataBlocksOf S ≤ 16540 := by
    simpa [INDIRECT2_BOUND, INDIRECT1_BOUND, DIRECT_BOUND, INODE_DIRECT_COUNT,
      INODE_INDIRECT1_COUNT, INODE_INDIRECT2_COUNT, BLOCK_SIZE] using hcap
  have hlen' : DiskInode.dataBlocksOf S + 2 +
      (DiskInode.dataBlocksOf S - 156 + 127) / 128 ≤ bs.length := by
    rw [total_blocks_eq] at hlen
    rw [if_neg (by omega), if_neg (by omega)] at hlen
    exact hlen
  simp only [DiskInode.increase_size, hc, show INODE_DIRECT_COUNT = 28 from rfl,
    show INODE_INDIRECT1_COUNT = 128 from rfl]
  have hmin : min (DiskInode.dataBlocksOf S) 28 = 28 := by omega
  rw [hmin]
  rw [fillEntries_spec 28 di.direct 0 28 bs (by omega) (by omega) (by omega)]
  simp only []
  rw [if_neg (by omega)]
  rw [listDrop_cons bs 28 (by omega)]
  simp only [eq_self_iff_true, if_true, show (28 : Nat) + 1 = 29 from rfl, Nat.sub_zero,
    Nat.sub_self]
  have hmin2 : min (DiskInode.dataBlocksOf S - 28) 128 = 128 := by omega
  rw [hmin2]
  rw [fillEntries_spec 128 (disk (bs.getD 28 0)) 0 128 (bs.drop 29) (by omega) (by omega)
    (by simp only [List.length_drop]; omega)]
  simp only []
  rw [if_neg (by omega)]
  rw [Nat.sub_zero, List.drop_drop, show (128 : Nat) + 29 = 157 from rfl]
  rw [listDrop_cons bs 157 (by omega)]
  simp only [eq_self_iff_true, if_true, show (157 : Nat) + 1 = 158 from rfl, Nat.sub_self,
    Nat.zero_div, Nat.zero_mod]
  have hsub : DiskInode.dataBlocksOf S - 28 - 128 = DiskInode.dataBlocksOf S - 156 := by
    omega
  rw [hsub]
  have hF : (fun j => if 0 ≤ j ∧ j < 128 then (bs.drop 29).getD (j - 0) 0
      else disk (bs.getD 28 0) j) =
      (fun j => if j < 128 then bs.getD (29 + j) 0 else disk (bs.getD 28 0) j) := by
    funext j
    simp only [Nat.zero_le, true_and, Nat.sub_zero]
    by_cases hj : j < 128
    · rw [if_pos hj, if_pos hj, listGetD_drop]
    · rw [if_neg hj, if_neg hj]
  rw [hF]
  have hfuel : (DiskInode.dataBlocksOf S - 156) / 128 * 128 +
      (DiskInode.dataBlocksOf S - 156) % 128 + 1 =
      ((DiskInode.dataBlocksOf S - 156) % 128 + 1) +
        128 * ((DiskInode.dataBlocksOf S - 156) / 128) := by
    omega
  rw [hfuel]
  rw [fillIndirect2_groups ((DiskInode.dataBlocksOf S - 156) / 128) _ _ 0 _ _ _ _
    (by omega) (by simp only [List.length_drop]; omega)]
  simp only [Nat.zero_add]
  by_cases hb0 : (DiskInode.dataBlocksOf S - 156) % 128 = 0
  · rw [hb0]
    rw [fillIndirect2_stop]
    rw [if_pos rfl]
    refine Prod.ext ?_ rfl
    show ({ size := S
            direct := fun j => if 0 ≤ j ∧ j < 28 then bs.getD j 0 else di.direct j
            indirect1 := bs.getD 28 0
            indirect2 := bs.getD 157 0
            type_ := di.type_ } : DiskInode) = _
    congr 1
    funext j
    simp only [Nat.zero_le, true_and]
  · rw [if_neg hb0]
    have hb1a : 1 ≤ (DiskInode.dataBlocksOf S - 156) % 128 := by omega
    have hb1b : (DiskInode.dataBlocksOf S - 156) % 128 ≤ 127 := by omega
    have hfuel2 : (DiskInode.dataBlocksOf S - 156) % 128 + 1 =
        0 + (1 + (DiskInode.dataBlocksOf S - 156) % 128) := by omega
    rw [hfuel2]
    rw [fillIndirect2_last_group _ _ _ _ _ 0 hb1a hb1b
      (by simp only [List.length_drop]; omega)]
    rw [listGetD_drop]
    simp only [Nat.add_zero]
    refine Prod.ext ?_ rfl
    show ({ size := S
            direct := fun j => if 0 ≤ j ∧ j < 28 then bs.getD j 0 else di.direct j
            indirect1 := bs.getD 28 0
            indirect2 := bs.getD 157 0
            type_ := di.type_ } : DiskInode) = _
    congr 1
    funext j
    simp only [Nat.zero_le, true_and]

/-! ## Shared machinery for C3 and C6: the index structure built by
`increase_size` from an empty inode -/

theorem listSlice_append (C : List Nat) (o c s : Nat) :
    listSlice C o (c + s) = listSlice C o c ++ listSlice C (o + c) s := by
  simp only [listSlice]
  rw [List.take_add]
  congr 1
  rw [List.drop_drop]

theorem listSlice_zero_len (C : List Nat) : listSlice C 0 C.length = C := by
  simp [listSlice]

theorem listSlice_len_zero (C : List Nat) (o : Nat) : listSlice C o 0 = [] := by
  simp [listSlice]

theorem range'_map_slice (C : List Nat) (o l : Nat) (h : o + l ≤ C.length) :
    (List.range' o l).map (fun p => C.getD p 0) = listSlice C o l := by
  apply List.ext_getElem
  · simp only [List.length_map, List.length_range', listSlice, List.length_take,
      List.length_drop]
    omega
  · intro i h1 h2
    have h1' : i < l := by simpa using h1
    have hs := listSlice_getD C o l i h1'
    rw [List.getD_eq_getElem _ _ h2] at hs
    simp only [List.getElem_map, List.getElem_range']
    rw [show o + 1 * i = o + i from by omega]
    rw [← hs]

theorem range'_map_shift (f : Nat → Nat) (s m : Nat) :
    (List.range' s m).map f = (List.range m).map (fun j => f (s + j)) := by
  apply List.ext_getElem
  · simp
  · intro i h1 h2
    simp [List.getElem_range', List.getElem_range]

theorem dataPos_lt_len (S i L : Nat) (hi : i < DiskInode.dataBlocksOf S)
    (hL : DiskInode.total_blocks S ≤ L) : dataPos i < L := by
  rw [total_blocks_eq] at hL
  simp only [dataPos, INODE_DIRECT_COUNT, INDIRECT1_BOUND, DIRECT_BOUND,
    INODE_INDIRECT1_COUNT, BLOCK_SIZE] at *
  split_ifs at hL ⊢ <;> omega

theorem dataPos_mono (i j : Nat) (h : i < j) : dataPos i < dataPos j := by
  simp only [dataPos, INODE_DIRECT_COUNT, INDIRECT1_BOUND, DIRECT_BOUND,
    INODE_INDIRECT1_COUNT, BLOCK_SIZE]
  split_ifs <;> omega

theorem pos28_lt_len (S L : Nat) (h : 28 < DiskInode.dataBlocksOf S)
    (hL : DiskInode.total_blocks S ≤ L) : 28 < L := by
  rw [total_blocks_eq] at hL
  split_ifs at hL <;> omega

theorem pos157_lt_len (S L : Nat) (h : 156 < DiskInode.dataBlocksOf S)
    (hL : DiskInode.total_blocks S ≤ L) : 157 < L := by
  rw [total_blocks_eq] at hL
  split_ifs at hL <;> omega

theorem groupPos_lt_len (S a L : Nat)
    (ha : 128 * a < DiskInode.dataBlocksOf S - 156)
    (hL : DiskInode.total_blocks S ≤ L) : 158 + 129 * a < L := by
  rw [total_blocks_eq] at hL
  split_ifs at hL <;> omega

theorem clear_size_size_zero (di : DiskInode) (d : Disk) :
    (DiskInode.clear_size di d).1.size = 0 := by
  simp only [DiskInode.clear_size]
  split_ifs <;> rfl

/-- Under `IndexOK`, `get_block_id` returns exactly the id consumed at
position `dataPos i` of the allocation list. -/
theorem get_of_IndexOK (di : DiskInode) (d : Disk) (n : Nat) (bs : List Nat)
    (h : IndexOK di d n bs) (i : Nat) (hi : i < n) :
    di.get_block_id d i = bs.getD (dataPos i) 0 := by
  obtain ⟨h1, h2, h3⟩ := h
  simp only [DiskInode.get_block_id, dataPos, show DIRECT_BOUND = 28 from rfl,
    show INDIRECT1_BOUND = 156 from rfl, show INODE_INDIRECT1_COUNT = 128 from rfl,
    show INODE_DIRECT_COUNT = 28 from rfl]
  by_cases hc1 : i < 28
  · rw [if_pos hc1, if_pos hc1]
    exact h1 i hi hc1
  · rw [if_neg hc1, if_neg hc1]
    by_cases hc2 : i < 156
    · rw [if_pos hc2, if_pos hc2]
      obtain ⟨hi1, hent⟩ := h2 (by simp only [show INODE_DIRECT_COUNT = 28 from rfl]; omega)
      rw [hi1, hent (i - 28) (by simp only [show INODE_INDIRECT1_COUNT = 128 from rfl]; omega)]
      congr 1
      omega
    · rw [if_neg hc2, if_neg hc2]
      obtain ⟨hi2, hmeta, hent⟩ :=
        h3 (by simp only [show INDIRECT1_BOUND = 156 from rfl]; omega)
      rw [hi2, hmeta ((i - 156) / 128) (by omega),
        hent ((i - 156) / 128) ((i - 156) % 128) (by omega) (by omega)]

/-- `IndexOK` survives a write to any block that is free of index metadata. -/
theorem indexOK_diskSet (di : DiskInode) (d : Disk) (n : Nat) (bs : List Nat)
    (bid : Nat) (blk : Block) (h : IndexOK di d n bs) (hm : MetaFree n bs bid) :
    IndexOK di (diskSet d bid blk) n bs := by
  obtain ⟨h1, h2, h3⟩ := h
  obtain ⟨m1, m2⟩ := hm
  refine ⟨h1, ?_, ?_⟩
  · intro hn
    obtain ⟨hi1, hent⟩ := h2 hn
    refine ⟨hi1, fun j hj => ?_⟩
    simp only [diskSet]
    rw [if_neg (fun he => m1 hn he.symm)]
    exact hent j hj
  · intro hn
    obtain ⟨hi2, hmeta, hent⟩ := h3 hn
    obtain ⟨m157, mg⟩ := m2 hn
    refine ⟨hi2, fun a ha => ?_, fun a c hc hac => ?_⟩
    · simp only [diskSet]
      rw [if_neg (fun he => m157 he.symm)]
      exact hmeta a ha
    · simp only [diskSet]
      rw [if_neg (fun he => mg a (by omega) he.symm)]
      exact hent a c hc hac

/-- The id consumed for data block `i` is distinct from every index-metadata
id, by `Nodup` of the allocation list. -/
theorem dataId_MetaFree (S : Nat) (bs : List Nat) (i : Nat)
    (hi : i < DiskInode.dataBlocksOf S)
    (hlen : DiskInode.total_blocks S ≤ bs.length) (hnd : bs.Nodup) :
    MetaFree (DiskInode.dataBlocksOf S) bs (bs.getD (dataPos i) 0) := by
  have hdp := dataPos_lt_len S i bs.length hi hlen
  refine ⟨fun hn => ?_, fun hn => ⟨?_, fun a ha => ?_⟩⟩
  · apply nodup_getD_ne bs hnd _ _ hdp
      (pos28_lt_len S bs.length (by simpa [INODE_DIRECT_COUNT] using hn) hlen)
    simp only [dataPos, INODE_DIRECT_COUNT, INDIRECT1_BOUND, DIRECT_BOUND,
      INODE_INDIRECT1_COUNT, BLOCK_SIZE]
    split_ifs <;> omega
  · apply nodup_getD_ne bs hnd _ _ hdp
      (pos157_lt_len S bs.length (by simpa [INDIRECT1_BOUND, DIRECT_BOUND,
        INODE_DIRECT_COUNT, INODE_INDIRECT1_COUNT, BLOCK_SIZE] using hn) hlen)
    simp only [dataPos, INODE_DIRECT_COUNT, INDIRECT1_BOUND, DIRECT_BOUND,
      INODE_INDIRECT1_COUNT, BLOCK_SIZE]
    split_ifs <;> omega
  · apply nodup_getD_ne bs hnd _ _ hdp (groupPos_lt_len S a bs.length ha hlen)
    simp only [dataPos, INODE_DIRECT_COUNT, INDIRECT1_BOUND, DIRECT_BOUND,
      INODE_INDIRECT1_COUNT, BLOCK_SIZE]
    split_ifs <;> omega

/-- Distinct data blocks receive distinct ids. -/
theorem dataId_ne (S : Nat) (bs : List Nat) (i j : Nat)
    (hi : i < DiskInode.dataBlocksOf S) (hj : j < DiskInode.dataBlocksOf S)
    (hij : i ≠ j) (hlen : DiskInode.total_blocks S ≤ bs.length)
    (hnd : bs.Nodup) : bs.getD (dataPos i) 0 ≠ bs.getD (dataPos j) 0 := by
  apply nodup_getD_ne bs hnd _ _ (dataPos_lt_len S i bs.length hi hlen)
    (dataPos_lt_len S j bs.length hj hlen)
  rcases Nat.lt_or_ge i j with h | h
  · exact Nat.ne_of_lt (dataPos_mono i j h)
  · exact (Nat.ne_of_lt (dataPos_mono j i (by omega))).symm

set_option maxRecDepth 8192 in
/-- Pointwise description of `increase_size` from an empty inode when the
data reaches the indirect2 region: the resulting index structure satisfies
`IndexOK`, untouched direct slots keep their values, and blocks free of
index metadata keep their old contents. -/
theorem increase_size_build_large (di : DiskInode) (disk : Disk) (S : Nat)
    (bs : List Nat) (hsz : di.size = 0) (h156 : 156 < DiskInode.dataBlocksOf S)
    (hcap : DiskInode.dataBlocksOf S ≤ INDIRECT2_BOUND)
    (hlen : DiskInode.total_blocks S ≤ bs.length) (hnd : bs.Nodup) :
    ∀ di' d', DiskInode.increase_size di disk S bs = (di', d') →
      di'.size = S ∧
      IndexOK di' d' (DiskInode.dataBlocksOf S) bs ∧
      (∀ j, 28 ≤ j → di'.direct j = di.direct j) ∧
      (∀ q, MetaFree (DiskInode.dataBlocksOf S) bs q → d' q = disk q) := by
  intro di' d' heq
  rw [increase_size_from_zero_large_eq di disk S bs hsz h156 hcap hlen] at heq
  have hcap' : DiskInode.dataBlocksOf S ≤ 16540 := by
    simpa [INDIRECT2_BOUND, INDIRECT1_BOUND, DIRECT_BOUND, INODE_DIRECT_COUNT,
      INODE_INDIRECT1_COUNT, INODE_INDIRECT2_COUNT, BLOCK_SIZE] using hcap
  have hlen' : DiskInode.dataBlocksOf S + 2 +
      (DiskInode.dataBlocksOf S - 156 + 127) / 128 ≤ bs.length := by
    rw [total_blocks_eq] at hlen
    rw [if_neg (by omega), if_neg (by omega)] at hlen
    exact hlen
  have h28L : 28 < bs.length := pos28_lt_len S bs.length (by omega) hlen
  have h157L : 157 < bs.length := pos157_lt_len S bs.length h156 hlen
  have hglen : ∀ y, 128 * y < DiskInode.dataBlocksOf S - 156 →
      158 + 129 * y < bs.length := fun y hy => groupPos_lt_len S y bs.length hy hlen
  beta_reduce at heq
  injection heq with hdi hd
  subst hdi
  subst hd
  generalize hgen : DiskInode.dataBlocksOf S = n at h156 hcap' hlen' hglen ⊢
  have hgne : ∀ y z, 128 * y < n - 156 → 128 * z < n - 156 → y ≠ z →
      bs.getD (158 + 129 * y) 0 ≠ bs.getD (158 + 129 * z) 0 := by
    intro y z hy hz hyz
    exact nodup_getD_ne bs hnd _ _ (hglen y hy) (hglen z hz) (by omega)
  have hg28 : ∀ y, 128 * y < n - 156 → bs.getD 28 0 ≠ bs.getD (158 + 129 * y) 0 := by
    intro y hy
    exact nodup_getD_ne bs hnd _ _ h28L (hglen y hy) (by omega)
  have hg157 : ∀ y, 128 * y < n - 156 → bs.getD 157 0 ≠ bs.getD (158 + 129 * y) 0 := by
    intro y hy
    exact nodup_getD_ne bs hnd _ _ h157L (hglen y hy) (by omega)
  have hne28157 : bs.getD 28 0 ≠ bs.getD 157 0 :=
    nodup_getD_ne bs hnd 28 157 h28L h157L (by omega)
  have hlen158 : 129 * ((n - 156) / 128) ≤ (bs.drop 158).length := by
    simp only [List.length_drop]
    omega
  have hglast : (bs.drop 158).getD (129 * ((n - 156) / 128)) 0 =
      bs.getD (158 + 129 * ((n - 156) / 128)) 0 := listGetD_drop bs 158 _
  by_cases hb0 : (n - 156) % 128 = 0
  · rw [if_pos hb0]
    refine ⟨rfl, ⟨?_, ?_, ?_⟩, ?_, ?_⟩
    · intro j hj1 hj2
      have hj2' : j < 28 := by simpa [INODE_DIRECT_COUNT] using hj2
      show (if j < 28 then bs.getD j 0 else di.direct j) = bs.getD j 0
      rw [if_pos hj2']
    · intro h28n
      refine ⟨rfl, ?_⟩
      intro j hj
      have hj128 : j < 128 := by
        rw [show INODE_INDIRECT1_COUNT = 128 from rfl] at hj
        omega
      simp only [diskSet]
      rw [if_neg hne28157]
      rw [buildGroups_frame _ _ _ _ (fun y hy => by
        rw [listGetD_drop]
        exact hg28 y (by omega))]
      simp only [diskSet, eq_self_iff_true, if_true]
      rw [if_pos hj128]
    · intro h156n
      refine ⟨rfl, ?_, ?_⟩
      · intro a ha
        have haa1 : a < (n - 156) / 128 := by omega
        simp only [diskSet, eq_self_iff_true, if_true]
        rw [buildInd2_spec]
        rw [if_pos ⟨Nat.zero_le a, by omega⟩]
        rw [Nat.sub_zero, listGetD_drop]
      · intro a c hc hac
        have haa1 : a < (n - 156) / 128 := by omega
        simp only [diskSet]
        rw [if_neg (Ne.symm (hg157 a (by omega)))]
        rw [show bs.getD (158 + 129 * a) 0 = (bs.drop 158).getD (129 * a) 0 from
          (listGetD_drop bs 158 (129 * a)).symm]
        have hdist : ∀ y, a < y → y < (n - 156) / 128 →
            (bs.drop 158).getD (129 * y) 0 ≠ (bs.drop 158).getD (129 * a) 0 := by
          intro y hy1 hy2
          rw [listGetD_drop, listGetD_drop]
          exact hgne y a (by omega) (by omega) (by omega)
        rw [buildGroups_group ((n - 156) / 128) _ (bs.drop 158) a c haa1 hc hlen158 hdist]
        rw [listGetD_drop, show 158 + (129 * a + 1 + c) = 159 + 129 * a + c from by omega]
    · intro j hj
      show (if j < 28 then bs.getD j 0 else di.direct j) = di.direct j
      rw [if_neg (by omega)]
    · intro q hq
      obtain ⟨m1, m2⟩ := hq
      have hq28 : q ≠ bs.getD 28 0 := m1 (by
        show INODE_DIRECT_COUNT < n
        rw [show INODE_DIRECT_COUNT = 28 from rfl]
        omega)
      obtain ⟨m157, mg⟩ := m2 (by
        show INDIRECT1_BOUND < n
        rw [show INDIRECT1_BOUND = 156 from rfl]
        omega)
      simp only [diskSet]
      rw [if_neg m157]
      rw [buildGroups_frame _ _ _ _ (fun y hy => by
        rw [listGetD_drop]
        exact mg y (by omega))]
      simp only [diskSet]
      rw [if_neg hq28]
  · rw [if_neg hb0]
    have hglastL : 128 * ((n - 156) / 128) < n - 156 := by omega
    refine ⟨rfl, ⟨?_, ?_, ?_⟩, ?_, ?_⟩
    · intro j hj1 hj2
      have hj2' : j < 28 := by simpa [INODE_DIRECT_COUNT] using hj2
      show (if j < 28 then bs.getD j 0 else di.direct j) = bs.getD j 0
      rw [if_pos hj2']
    · intro h28n
      refine ⟨rfl, ?_⟩
      intro j hj
      have hj128 : j < 128 := by
        rw [show INODE_INDIRECT1_COUNT = 128 from rfl] at hj
        omega
      simp only [diskSet]
      rw [if_neg hne28157]
      rw [diskWriteCells_other _ _ _ _ _ (by
        rw [hglast]
        exact hg28 _ hglastL)]
      rw [buildGroups_frame _ _ _ _ (fun y hy => by
        rw [listGetD_drop]
        exact hg28 y (by omega))]
      simp only [diskSet, eq_self_iff_true, if_true]
      rw [if_pos hj128]
    · intro h156n
      refine ⟨rfl, ?_, ?_⟩
      · intro a ha
        simp only [diskSet, eq_self_iff_true, if_true, setIdx]
        by_cases haa : a = (n - 156) / 128
        · rw [if_pos haa, hglast, haa]
        · rw [if_neg haa]
          rw [buildInd2_spec]
          rw [if_pos ⟨Nat.zero_le a, by omega⟩]
          rw [Nat.sub_zero, listGetD_drop]
      · intro a c hc hac
        simp only [diskSet]
        rw [if_neg (Ne.symm (hg157 a (by omega)))]
        by_cases haa : a = (n - 156) / 128
        · subst haa
          rw [← hglast]
          rw [diskWriteCells_same]
          have hcb1 : c < (n - 156) % 128 := by omega
          rw [if_pos ⟨Nat.zero_le c, by
            simp only [listSlice, List.length_take, List.length_drop]
            omega⟩]
          rw [Nat.sub_zero]
          rw [listSlice_getD _ _ _ _ hcb1]
          rw [listGetD_drop, listGetD_drop,
            show 158 + (129 * ((n - 156) / 128) + (1 + c)) =
              159 + 129 * ((n - 156) / 128) + c from by omega]
        · have haa1 : a < (n - 156) / 128 := by omega
          rw [diskWriteCells_other _ _ _ _ _ (by
            rw [hglast]
            exact hgne a _ (by omega) hglastL haa)]
          rw [show bs.getD (158 + 129 * a) 0 = (bs.drop 158).getD (129 * a) 0 from
            (listGetD_drop bs 158 (129 * a)).symm]
          have hdist : ∀ y, a < y → y < (n - 156) / 128 →
              (bs.drop 158).getD (129 * y) 0 ≠ (bs.drop 158).getD (129 * a) 0 := by
            intro y hy1 hy2
            rw [listGetD_drop, listGetD_drop]
            exact hgne y a (by omega) (by omega) (by omega)
          rw [buildGroups_group ((n - 156) / 128) _ (bs.drop 158) a c haa1 hc hlen158 hdist]
          rw [listGetD_drop,
            show 158 + (129 * a + 1 + c) = 159 + 129 * a + c from by omega]
    · intro j hj
      show (if j < 28 then bs.getD j 0 else di.direct j) = di.direct j
      rw [if_neg (by omega)]
    · intro q hq
      obtain ⟨m1, m2⟩ := hq
      have hq28 : q ≠ bs.getD 28 0 := m1 (by
        show INODE_DIRECT_COUNT < n
        rw [show INODE_DIRECT_COUNT = 28 from rfl]
        omega)
      obtain ⟨m157, mg⟩ := m2 (by
        show INDIRECT1_BOUND < n
        rw [show INDIRECT1_BOUND = 156 from rfl]
        omega)
      simp only [diskSet]
      rw [if_neg m157]
      rw [diskWriteCells_other _ _ _ _ _ (by
        rw [hglast]
        exact mg _ hglastL)]
      rw [buildGroups_frame _ _ _ _ (fun y hy => by
        rw [listGetD_drop]
        exact mg y (by omega))]
      simp only [diskSet]
      rw [if_neg hq28]

/-- Pointwise description of `increase_size` from an empty inode, all size
regimes: the result satisfies `IndexOK`, fields not reached by the fill keep
their old values, and blocks free of index metadata keep their contents. -/
theorem increase_size_build (di : DiskInode) (disk : Disk) (S : Nat) (bs : List Nat)
    (hsz : di.size = 0) (hcap : DiskInode.dataBlocksOf S ≤ INDIRECT2_BOUND)
    (hlen : DiskInode.total_blocks S ≤ bs.length) (hnd : bs.Nodup) :
    ∀ di' d', DiskInode.increase_size di disk S bs = (di', d') →
      di'.size = S ∧
      IndexOK di' d' (DiskInode.dataBlocksOf S) bs ∧
      (∀ j, min (DiskInode.dataBlocksOf S) 28 ≤ j → di'.direct j = di.direct j) ∧
      (DiskInode.dataBlocksOf S ≤ 28 → di'.indirect1 = di.indirect1) ∧
      (DiskInode.dataBlocksOf S ≤ 156 → di'.indirect2 = di.indirect2) ∧
      (∀ q, MetaFree (DiskInode.dataBlocksOf S) bs q → d' q = disk q) := by
  intro di' d' heq
  rcases Nat.lt_or_ge 156 (DiskInode.dataBlocksOf S) with h156 | h156
  · obtain ⟨h1, h2, h3, h4⟩ :=
      increase_size_build_large di disk S bs hsz h156 hcap hlen hnd di' d' heq
    refine ⟨h1, h2, ?_, ?_, ?_, h4⟩
    · intro j hj
      exact h3 j (by omega)
    · intro h
      omega
    · intro h
      omega
  · rcases Nat.lt_or_ge 28 (DiskInode.dataBlocksOf S) with h28 | h28
    · -- medium regime
      have hlenM : DiskInode.dataBlocksOf S + 1 ≤ bs.length := by
        rw [total_blocks_eq] at hlen
        rw [if_neg (by omega), if_pos (by omega)] at hlen
        exact hlen
      rw [increase_size_from_zero_med di disk S bs hsz h28 h156 hlenM] at heq
      injection heq with hdi hd
      subst hdi
      subst hd
      refine ⟨rfl, ⟨?_, ?_, ?_⟩, ?_, ?_, ?_, ?_⟩
      · intro j hj1 hj2
        have hj2' : j < 28 := by simpa [INODE_DIRECT_COUNT] using hj2
        show (if j < 28 then bs.getD j 0 else di.direct j) = bs.getD j 0
        rw [if_pos hj2']
      · intro h28n
        refine ⟨rfl, ?_⟩
        intro j hj
        have hjn : j < DiskInode.dataBlocksOf S - 28 := by
          rw [show INODE_INDIRECT1_COUNT = 128 from rfl] at hj
          omega
        simp only [diskSet, eq_self_iff_true, if_true]
        rw [if_pos hjn]
      · intro h
        rw [show INDIRECT1_BOUND = 156 from rfl] at h
        omega
      · intro j hj
        show (if j < 28 then bs.getD j 0 else di.direct j) = di.direct j
        rw [if_neg (by omega)]
      · intro h
        omega
      · intro _
        rfl
      · intro q hq
        obtain ⟨m1, _⟩ := hq
        have hq28 : q ≠ bs.getD 28 0 := m1 (by
          show INODE_DIRECT_COUNT < DiskInode.dataBlocksOf S
          rw [show INODE_DIRECT_COUNT = 28 from rfl]
          omega)
        simp only [diskSet]
        rw [if_neg hq28]
    · -- small regime
      have hlenS : DiskInode.dataBlocksOf S ≤ bs.length := by
        rw [total_blocks_eq] at hlen
        rw [if_pos (by omega)] at hlen
        exact hlen
      rw [increase_size_from_zero_small di disk S bs hsz h28 hlenS] at heq
      injection heq with hdi hd
      subst hdi
      subst hd
      refine ⟨rfl, ⟨?_, ?_, ?_⟩, ?_, ?_, ?_, ?_⟩
      · intro j hj1 hj2
        show (if j < DiskInode.dataBlocksOf S then bs.getD j 0 else di.direct j) =
          bs.getD j 0
        rw [if_pos hj1]
      · intro h
        rw [show INODE_DIRECT_COUNT = 28 from rfl] at h
        omega
      · intro h
        rw [show INDIRECT1_BOUND = 156 from rfl] at h
        omega
      · intro j hj
        show (if j < DiskInode.dataBlocksOf S then bs.getD j 0 else di.direct j) =
          di.direct j
        rw [if_neg (by omega)]
      · intro _
        rfl
      · intro _
        rfl
      · intro q _
        rfl

/-- The block-by-block write loop of `write_at`, started at offset 0 on an
index structure built from `bs`: it preserves `IndexOK` (data ids are
metadata-free) and after it finishes, byte `p` of the content sits at cell
`p % 512` of the data block id consumed at position `dataPos (p / 512)`. -/
theorem writeAtLoop_content (di : DiskInode) (C bs : List Nat) (S : Nat)
    (hcapn : DiskInode.dataBlocksOf S ≤ INDIRECT2_BOUND)
    (hlen : DiskInode.total_blocks S ≤ bs.length) (hnd : bs.Nodup)
    (hCS : C.length ≤ S) :
    ∀ (k : Nat) (d : Disk) (start sb : Nat),
      IndexOK di d (DiskInode.dataBlocksOf S) bs →
      sb * BLOCK_SIZE ≤ start → start < (sb + 1) * BLOCK_SIZE → start < C.length →
      (∀ p, p < start →
        d (bs.getD (dataPos (p / BLOCK_SIZE)) 0) (p % BLOCK_SIZE) = C.getD p 0) →
      C.length - start ≤ k →
      IndexOK di (writeAtLoop di d C start C.length sb start).1
          (DiskInode.dataBlocksOf S) bs ∧
      (∀ p, p < C.length →
        (writeAtLoop di d C start C.length sb start).1
          (bs.getD (dataPos (p / BLOCK_SIZE)) 0) (p % BLOCK_SIZE) = C.getD p 0) := by
  have hn512 : S ≤ DiskInode.dataBlocksOf S * 512 := by
    simp only [DiskInode.dataBlocksOf, BLOCK_SIZE]
    omega
  intro k
  induction k with
  | zero =>
    intro d start sb hIdx h1 h2 h3 hcont h0
    omega
  | succ k ih =>
    intro d start sb hIdx h1 h2 h3 hcont h0
    have hsbn : sb < DiskInode.dataBlocksOf S := by
      simp only [BLOCK_SIZE] at h1 h2
      omega
    have hbid := get_of_IndexOK di d _ bs hIdx sb hsbn
    have hd1 : ∀ p, p < min ((sb + 1) * BLOCK_SIZE) C.length →
        diskSet d (bs.getD (dataPos sb) 0)
          (blockCopy (d (bs.getD (dataPos sb) 0)) (start % BLOCK_SIZE)
            (listSlice C start (min ((sb + 1) * BLOCK_SIZE) C.length - start)))
          (bs.getD (dataPos (p / BLOCK_SIZE)) 0) (p % BLOCK_SIZE) = C.getD p 0 := by
      intro p hp
      by_cases hpb : p / BLOCK_SIZE = sb
      · rw [hpb]
        simp only [diskSet, eq_self_iff_true, if_true, blockCopy]
        have hslen : (listSlice C start
            (min ((sb + 1) * BLOCK_SIZE) C.length - start)).length =
            min ((sb + 1) * BLOCK_SIZE) C.length - start := by
          simp only [listSlice, List.length_take, List.length_drop, BLOCK_SIZE]
          omega
        rw [hslen]
        by_cases hge : start ≤ p
        · rw [if_pos ⟨by simp only [BLOCK_SIZE] at *; omega,
            by simp only [BLOCK_SIZE] at *; omega⟩]
          rw [listSlice_getD _ _ _ _ (by simp only [BLOCK_SIZE] at *; omega)]
          congr 1
          simp only [BLOCK_SIZE] at *
          omega
        · rw [if_neg (by simp only [BLOCK_SIZE] at *; omega)]
          have hc := hcont p (by omega)
          rw [hpb] at hc
          exact hc
      · have hplt : p / BLOCK_SIZE < sb := by
          simp only [BLOCK_SIZE] at *
          omega
        have hne : bs.getD (dataPos (p / BLOCK_SIZE)) 0 ≠ bs.getD (dataPos sb) 0 :=
          dataId_ne S bs _ _ (by omega) hsbn (by omega) hlen hnd
        simp only [diskSet]
        rw [if_neg hne]
        exact hcont p (by simp only [BLOCK_SIZE] at *; omega)
    have hIdx1 : IndexOK di (diskSet d (bs.getD (dataPos sb) 0)
        (blockCopy (d (bs.getD (dataPos sb) 0)) (start % BLOCK_SIZE)
          (listSlice C start (min ((sb + 1) * BLOCK_SIZE) C.length - start))))
        (DiskInode.dataBlocksOf S) bs :=
      indexOK_diskSet _ _ _ _ _ _ hIdx (dataId_MetaFree S bs sb hsbn hlen hnd)
    rw [writeAtLoop]
    by_cases h : min ((sb + 1) * BLOCK_SIZE) C.length = C.length
    · simp only [dif_pos h]
      rw [hbid, h]
      rw [h] at hd1 hIdx1
      exact ⟨hIdx1, hd1⟩
    · simp only [dif_neg h]
      rw [hbid]
      have hlt : (sb + 1) * BLOCK_SIZE < C.length := by
        by_contra hc
        push_neg at hc
        exact h (Nat.min_eq_right hc)
      have hminE : min ((sb + 1) * BLOCK_SIZE) C.length = (sb + 1) * BLOCK_SIZE :=
        Nat.min_eq_left (Nat.le_of_lt hlt)
      rw [hminE] at hd1 hIdx1 ⊢
      rw [show start + ((sb + 1) * BLOCK_SIZE - start) = (sb + 1) * BLOCK_SIZE from by
        simp only [BLOCK_SIZE] at *
        omega]
      exact ih _ ((sb + 1) * BLOCK_SIZE) (sb + 1) hIdx1 (Nat.le_refl _)
        (by simp only [BLOCK_SIZE]; omega) hlt hd1
        (by simp only [BLOCK_SIZE] at *; omega)

/-- The block-by-block read loop of `read_at` over an `IndexOK` structure
whose data blocks hold the content `C`: it appends exactly the bytes
`C[start .. endPos)` to the accumulator. -/
theorem readAtLoop_content (di : DiskInode) (C bs : List Nat) (S : Nat)
    (hcapn : DiskInode.dataBlocksOf S ≤ INDIRECT2_BOUND) :
    ∀ (k : Nat) (d : Disk) (start endPos sb : Nat) (acc : List Nat),
      endPos ≤ S →
      IndexOK di d (DiskInode.dataBlocksOf S) bs →
      sb * BLOCK_SIZE ≤ start → start < (sb + 1) * BLOCK_SIZE → start < endPos →
      (∀ p, p < endPos →
        d (bs.getD (dataPos (p / BLOCK_SIZE)) 0) (p % BLOCK_SIZE) = C.getD p 0) →
      endPos - start ≤ k →
      readAtLoop di d start endPos sb acc =
        acc ++ (List.range' start (endPos - start)).map (fun p => C.getD p 0) := by
  have hn512 : S ≤ DiskInode.dataBlocksOf S * 512 := by
    simp only [DiskInode.dataBlocksOf, BLOCK_SIZE]
    omega
  intro k
  induction k with
  | zero =>
    intro d start endPos sb acc hES hIdx h1 h2 h3 hcont h0
    omega
  | succ k ih =>
    intro d start endPos sb acc hES hIdx h1 h2 h3 hcont h0
    have hsbn : sb < DiskInode.dataBlocksOf S := by
      simp only [BLOCK_SIZE] at h1 h2
      omega
    have hbid := get_of_IndexOK di d _ bs hIdx sb hsbn
    have hchunk : (List.range (min ((sb + 1) * BLOCK_SIZE) endPos - start)).map
        (fun j => d (di.get_block_id d sb) (start % BLOCK_SIZE + j)) =
        (List.range' start (min ((sb + 1) * BLOCK_SIZE) endPos - start)).map
          (fun p => C.getD p 0) := by
      rw [range'_map_shift]
      apply List.map_congr_left
      intro j hj
      have hjlt : j < min ((sb + 1) * BLOCK_SIZE) endPos - start :=
        List.mem_range.mp hj
      rw [hbid]
      have hc := hcont (start + j) (by simp only [BLOCK_SIZE] at *; omega)
      have hdivj : (start + j) / BLOCK_SIZE = sb := by
        simp only [BLOCK_SIZE] at *
        omega
      have hmodj : (start + j) % BLOCK_SIZE = start % BLOCK_SIZE + j := by
        simp only [BLOCK_SIZE] at *
        omega
      rw [hdivj, hmodj] at hc
      exact hc
    rw [readAtLoop]
    by_cases h : min ((sb + 1) * BLOCK_SIZE) endPos = endPos
    · simp only [dif_pos h]
      rw [hchunk, h]
    · simp only [dif_neg h]
      have hlt : (sb + 1) * BLOCK_SIZE < endPos := by
        by_contra hc
        push_neg at hc
        exact h (Nat.min_eq_right hc)
      have hminE : min ((sb + 1) * BLOCK_SIZE) endPos = (sb + 1) * BLOCK_SIZE :=
        Nat.min_eq_left (Nat.le_of_lt hlt)
      rw [hminE] at hchunk ⊢
      rw [hchunk]
      rw [ih d ((sb + 1) * BLOCK_SIZE) endPos (sb + 1) _ hES hIdx (Nat.le_refl _)
        (by simp only [BLOCK_SIZE]; omega) hlt hcont
        (by simp only [BLOCK_SIZE] at *; omega)]
      rw [List.append_assoc, ← List.map_append]
      congr 2
      rw [show endPos - start =
        (endPos - (sb + 1) * BLOCK_SIZE) + ((sb + 1) * BLOCK_SIZE - start) from by
        simp only [BLOCK_SIZE] at *
        omega]
      rw [← List.range'_append, Nat.one_mul]
      rw [show start + ((sb + 1) * BLOCK_SIZE - start) = (sb + 1) * BLOCK_SIZE from by
        simp only [BLOCK_SIZE] at *
        omega]

/-- `DiskInode::read_at` over an `IndexOK` structure holding content `C`
(with `size = C.len`): reading `[o, o + l)` returns exactly that slice. -/
theorem read_at_slice (di : DiskInode) (d : Disk) (C bs : List Nat)
    (hsz : di.size = C.length)
    (hcapn : DiskInode.dataBlocksOf C.length ≤ INDIRECT2_BOUND)
    (hIdx : IndexOK di d (DiskInode.dataBlocksOf C.length) bs)
    (hcont : ∀ p, p < C.length →
      d (bs.getD (dataPos (p / BLOCK_SIZE)) 0) (p % BLOCK_SIZE) = C.getD p 0)
    (o l : Nat) (hol : o + l ≤ C.length) :
    DiskInode.read_at di d o l = listSlice C o l := by
  unfold DiskInode.read_at
  rw [hsz]
  by_cases h0 : o ≥ min (o + l) C.length
  · rw [if_pos h0]
    have hl0 : l = 0 := by omega
    rw [hl0, listSlice_len_zero]
  · rw [if_neg h0]
    have hmin : min (o + l) C.length = o + l := Nat.min_eq_left hol
    rw [hmin]
    have hmod := Nat.div_add_mod o BLOCK_SIZE
    have hmlt : o % BLOCK_SIZE < BLOCK_SIZE := Nat.mod_lt _ (by simp [BLOCK_SIZE])
    rw [readAtLoop_content di C bs C.length hcapn (o + l) d o (o + l)
      (o / BLOCK_SIZE) [] hol hIdx
      (by simp only [BLOCK_SIZE] at *; omega)
      (by simp only [BLOCK_SIZE] at *; omega)
      (by omega) (fun p hp => hcont p (by omega)) (by omega)]
    rw [List.nil_append]
    rw [show o + l - o = l from by omega]
    exact range'_map_slice C o l hol

/-- Reading consecutive chunks concatenates to the corresponding slice. -/
theorem readChunks_slice (di : DiskInode) (d : Disk) (C bs : List Nat)
    (hsz : di.size = C.length)
    (hcapn : DiskInode.dataBlocksOf C.length ≤ INDIRECT2_BOUND)
    (hIdx : IndexOK di d (DiskInode.dataBlocksOf C.length) bs)
    (hcont : ∀ p, p < C.length →
      d (bs.getD (dataPos (p / BLOCK_SIZE)) 0) (p % BLOCK_SIZE) = C.getD p 0) :
    ∀ (chunks : List Nat) (o : Nat), o + chunks.sum ≤ C.length →
      readChunks di d o chunks = listSlice C o chunks.sum := by
  intro chunks
  induction chunks with
  | nil =>
    intro o h
    rw [readChunks, List.sum_nil, listSlice_len_zero]
  | cons c rest ih =>
    intro o h
    rw [List.sum_cons] at h ⊢
    rw [readChunks]
    rw [show Inode.read_at di d o c = DiskInode.read_at di d o c from rfl]
    rw [read_at_slice di d C bs hsz hcapn hIdx hcont o c (by omega)]
    rw [ih (o + c) (by omega)]
    rw [← listSlice_append]

/-! ## C3 — clear / write / read round-trip -/

/-- C3: for every content `C` within the maximum file size, after `clear`
(`DiskInode::clear_size`) and `Inode::write_at(0, C)` (which grows the inode
with fresh, distinct block ids and then writes block by block), the write
reports `C.len` bytes written, `Inode::read_at(0, C.len)` returns exactly
the bytes of `C`, and reading the same range in smaller consecutive chunks
concatenates to `C`. -/
theorem inode_clear_write_read_roundtrip (di0 : DiskInode) (disk0 : Disk)
    (C bs : List Nat)
    (hcap : C.length ≤ INDIRECT2_BOUND * BLOCK_SIZE)
    (hlen : DiskInode.total_blocks C.length ≤ bs.length)
    (hnd : bs.Nodup) :
    ∀ dc dskc freed dw dskw cnt,
      DiskInode.clear_size di0 disk0 = (dc, dskc, freed) →
      Inode.write_at dc dskc 0 C bs = (dw, dskw, cnt) →
      cnt = C.length ∧
      Inode.read_at dw dskw 0 C.length = C ∧
      ∀ chunks : List Nat, chunks.sum = C.length →
        readChunks dw dskw 0 chunks = C := by
  intro dc dskc freed dw dskw cnt hclr hw
  have hdcsz : dc.size = 0 := by
    have h := clear_size_size_zero di0 disk0
    rw [hclr] at h
    exact h
  have hcapn : DiskInode.dataBlocksOf C.length ≤ INDIRECT2_BOUND := by
    simp only [DiskInode.dataBlocksOf, INDIRECT2_BOUND, INDIRECT1_BOUND, DIRECT_BOUND,
      INODE_DIRECT_COUNT, INODE_INDIRECT1_COUNT, INODE_INDIRECT2_COUNT, BLOCK_SIZE] at *
    omega
  obtain ⟨hsz', hIdx, -, -, -, -⟩ :=
    increase_size_build dc dskc C.length bs hdcsz hcapn hlen hnd
      (DiskInode.increase_size dc dskc C.length bs).1
      (DiskInode.increase_size dc dskc C.length bs).2 rfl
  have hgrow : Inode.increase_size dc dskc (0 + C.length) bs =
      DiskInode.increase_size dc dskc C.length bs := by
    rw [Nat.zero_add, Inode.increase_size, if_neg (by omega)]
  simp only [Inode.write_at] at hw
  rw [hgrow] at hw
  simp only [DiskInode.write_at] at hw
  rw [hsz'] at hw
  simp only [Nat.zero_add, Nat.min_self, Nat.zero_div] at hw
  by_cases hC0 : C.length = 0
  · rw [if_pos (by omega)] at hw
    injection hw with hw1 hw2
    injection hw2 with hw2 hw3
    subst hw1
    subst hw2
    subst hw3
    have hCnil : C = [] := List.length_eq_zero.mp hC0
    refine ⟨by omega, ?_, ?_⟩
    · rw [show Inode.read_at _ _ 0 C.length = DiskInode.read_at
        (DiskInode.increase_size dc dskc C.length bs).1
        (DiskInode.increase_size dc dskc C.length bs).2 0 C.length from rfl]
      rw [read_at_slice _ _ C bs hsz' hcapn hIdx
        (fun p hp => absurd hp (by omega)) 0 C.length (by omega)]
      rw [listSlice_zero_len]
    · intro chunks hsum
      rw [readChunks_slice _ _ C bs hsz' hcapn hIdx
        (fun p hp => absurd hp (by omega)) chunks 0 (by omega)]
      rw [hsum, listSlice_zero_len]
  · rw [if_neg (by omega)] at hw
    obtain ⟨hIdxW, hcontW⟩ := writeAtLoop_content
      (DiskInode.increase_size dc dskc C.length bs).1 C bs C.length hcapn hlen hnd
      (Nat.le_refl _) C.length (DiskInode.increase_size dc dskc C.length bs).2 0 0
      hIdx (by omega) (by simp only [BLOCK_SIZE]; omega) (by omega)
      (fun p hp => absurd hp (by omega)) (by omega)
    have hcount := writeAtLoop_count
      (DiskInode.increase_size dc dskc C.length bs).1 C C.length
      (DiskInode.increase_size dc dskc C.length bs).2 0 C.length 0 0
      (by omega) (by omega) (by simp only [BLOCK_SIZE]; omega) (by omega)
    injection hw with hw1 hw2
    injection hw2 with hw2 hw3
    subst hw1
    subst hw2
    subst hw3
    refine ⟨by omega, ?_, ?_⟩
    · rw [show Inode.read_at _ _ 0 C.length = DiskInode.read_at
        (DiskInode.increase_size dc dskc C.length bs).1
        (writeAtLoop (DiskInode.increase_size dc dskc C.length bs).1
          (DiskInode.increase_size dc dskc C.length bs).2 C 0 C.length 0 0).1
        0 C.length from rfl]
      rw [read_at_slice _ _ C bs hsz' hcapn hIdxW hcontW 0 C.length (by omega)]
      rw [listSlice_zero_len]
    · intro chunks hsum
      rw [readChunks_slice _ _ C bs hsz' hcapn hIdxW hcontW chunks 0 (by omega)]
      rw [hsum, listSlice_zero_len]

/-- C3 witness: the round-trip theorem at the concrete content `[1, 2, 3]`
with allocation list `[5]` on an all-zero disk. -/
theorem inode_clear_write_read_roundtrip_witness :
    (let cl := DiskInode.clear_size (DiskInode.initialize_ DiskInodeType.file)
        (fun _ _ => 0)
     let w := Inode.write_at cl.1 cl.2.1 0 [1, 2, 3] [5]
     w.2.2 = 3 ∧ Inode.read_at w.1 w.2.1 0 3 = [1, 2, 3] ∧
       readChunks w.1 w.2.1 0 [2, 1] = [1, 2, 3]) := by
  have h := inode_clear_write_read_roundtrip (DiskInode.initialize_ DiskInodeType.file)
    (fun _ _ => 0) [1, 2, 3] [5] (by decide) (by decide) (by decide)
    _ _ _ _ _ _ rfl rfl
  exact ⟨h.1, h.2.1, h.2.2 [2, 1] (by decide)⟩

/-! ## Shared machinery for C6: `clear_size` of a built index structure -/

theorem range_map_slice (f : Nat → Nat) (bs : List Nat) (o m : Nat)
    (hv : ∀ c, c < m → f c = bs.getD (o + c) 0) (hlen : o + m ≤ bs.length) :
    (List.range m).map f = (bs.drop o).take m := by
  have hm : (List.range m).map f =
      (List.range m).map (fun c => (bs.drop o).getD c 0) :=
    List.map_congr_left (fun c hc => by
      rw [hv c (List.mem_range.mp hc), ← listGetD_drop])
  rw [hm]
  exact range_map_getD (bs.drop o) m (by simp only [List.length_drop]; omega)

theorem range'_zero_map_slice (f : Nat → Nat) (bs : List Nat) (o m : Nat)
    (hv : ∀ c, c < m → f c = bs.getD (o + c) 0) (hlen : o + m ≤ bs.length) :
    (List.range' 0 m).map f = (bs.drop o).take m := by
  rw [show List.range' 0 m = List.range m from (List.range_eq_range' m).symm]
  exact range_map_slice f bs o m hv hlen

/-- The full-group walk of `clear_size` over the indirect2 block: with the
indirect2 block and the group indirect1 blocks holding the ids consumed by
the build, it pushes exactly `bs[158 + 129 i .. 158 + 129 a1)`. -/
theorem clearIndirect2Full_spec (bs : List Nat) (a1 : Nat) :
    ∀ (g i : Nat) (ind2 : Block) (disk : Disk), i + g = a1 →
      (∀ x, i ≤ x → x < a1 → ind2 x = bs.getD (158 + 129 * x) 0) →
      (∀ x c, i ≤ x → x < a1 → c < 128 →
        disk (bs.getD (158 + 129 * x) 0) c = bs.getD (159 + 129 * x + c) 0) →
      158 + 129 * a1 ≤ bs.length →
      clearIndirect2Full ind2 disk i a1 =
        (bs.drop (158 + 129 * i)).take (129 * (a1 - i)) := by
  intro g
  induction g with
  | zero =>
    intro i ind2 disk h0 h1 h2 h3
    have hi : i = a1 := by omega
    rw [clearIndirect2Full, dif_neg (by omega)]
    rw [hi, Nat.sub_self, Nat.mul_zero, List.take_zero]
  | succ g ih =>
    intro i ind2 disk h0 h1 h2 h3
    rw [clearIndirect2Full, dif_pos (by omega)]
    rw [h1 i (Nat.le_refl i) (by omega)]
    have hcr : collectRange (disk (bs.getD (158 + 129 * i) 0)) INODE_INDIRECT1_COUNT =
        (bs.drop (159 + 129 * i)).take 128 := by
      rw [show INODE_INDIRECT1_COUNT = 128 from rfl, collectRange]
      exact range_map_slice _ bs (159 + 129 * i) 128
        (fun c hc => h2 i c (Nat.le_refl i) (by omega) hc) (by omega)
    rw [hcr]
    rw [ih (i + 1) ind2 disk (by omega)
      (fun x hx1 hx2 => h1 x (by omega) hx2)
      (fun x c hx1 hx2 hc => h2 x c (by omega) hx2 hc) h3]
    rw [listDrop_cons bs (158 + 129 * i) (by omega)]
    rw [show 129 * (a1 - i) = (128 + 129 * (a1 - (i + 1))) + 1 from by omega]
    rw [List.take_succ_cons]
    rw [List.take_add]
    rw [List.drop_drop]
    rw [show 158 + 129 * i + 1 = 159 + 129 * i from by omega]
    rw [show 159 + 129 * i + 128 = 158 + 129 * (i + 1) from by omega]
    rw [List.cons_append]

/-- C6: for an index structure built by `increase_size` up to size `S` from
a fresh (`initialize`d) inode, `clear_size` returns exactly the consumed
allocation list (so its length is `total_blocks S`: every data block id plus
the indirect1/indirect2 metadata ids), sets `size` to 0 and clears the
direct, indirect1 and indirect2 index fields. -/
theorem disk_inode_clear_size_spec (t : DiskInodeType) (disk : Disk) (S : Nat)
    (bs : List Nat)
    (hcap : DiskInode.dataBlocksOf S ≤ INDIRECT2_BOUND)
    (hlen : bs.length = DiskInode.total_blocks S)
    (hnd : bs.Nodup) :
    ∀ di' d', DiskInode.increase_size (DiskInode.initialize_ t) disk S bs = (di', d') →
      (DiskInode.clear_size di' d').2.2 = bs ∧
      (DiskInode.clear_size di' d').2.2.length = DiskInode.total_blocks S ∧
      (DiskInode.clear_size di' d').1.size = 0 ∧
      (∀ j, (DiskInode.clear_size di' d').1.direct j = 0) ∧
      (DiskInode.clear_size di' d').1.indirect1 = 0 ∧
      (DiskInode.clear_size di' d').1.indirect2 = 0 := by
  intro di' d' heq
  obtain ⟨hsz', ⟨hIdir, hI1, hI2⟩, hdir, hi01, hi02, -⟩ :=
    increase_size_build (DiskInode.initialize_ t) disk S bs rfl hcap (by omega) hnd
      di' d' heq
  rcases hcs : DiskInode.clear_size di' d' with ⟨c1, c2, c3⟩
  simp only [DiskInode.clear_size, DiskInode.data_blocks, hsz',
    show INODE_DIRECT_COUNT = 28 from rfl, show INODE_INDIRECT1_COUNT = 128 from rfl]
    at hcs
  rcases Nat.lt_or_ge 28 (DiskInode.dataBlocksOf S) with h28 | h28
  · rcases Nat.lt_or_ge 156 (DiskInode.dataBlocksOf S) with h156 | h156
    · -- large regime
      have hlenL : bs.length = DiskInode.dataBlocksOf S + 2 +
          (DiskInode.dataBlocksOf S - 156 + 127) / 128 := by
        rw [hlen, total_blocks_eq, if_neg (by omega), if_neg (by omega)]
      have hInd1 : di'.indirect1 = bs.getD 28 0 :=
        (hI1 (by rw [show INODE_DIRECT_COUNT = 28 from rfl]; omega)).1
      have hEnt1 := (hI1 (by rw [show INODE_DIRECT_COUNT = 28 from rfl]; omega)).2
      obtain ⟨hInd2, hMeta, hEnt2⟩ :=
        hI2 (by rw [show INDIRECT1_BOUND = 156 from rfl]; omega)
      rw [if_neg (by omega), if_neg (by omega)] at hcs
      rw [show min (DiskInode.dataBlocksOf S) 28 = 28 from by omega] at hcs
      rw [show min (DiskInode.dataBlocksOf S - 28) 128 = 128 from by omega] at hcs
      rw [drainEntries_spec 28 di'.direct 0 28 rfl (by omega)] at hcs
      rw [hInd1, hInd2] at hcs
      rw [drainEntries_spec 128 (d' (bs.getD 28 0)) 0 128 rfl (by omega)] at hcs
      simp only [Nat.sub_zero] at hcs
      rw [show DiskInode.dataBlocksOf S - 28 - 128 = DiskInode.dataBlocksOf S - 156
        from by omega] at hcs
      have hdr1 : (List.range' 0 28).map di'.direct = bs.take 28 := by
        have h := range'_zero_map_slice di'.direct bs 0 28 (fun c hc => by
          rw [Nat.zero_add]
          exact hIdir c (by omega) (by rw [show INODE_DIRECT_COUNT = 28 from rfl]; omega))
          (by omega)
        rw [List.drop_zero] at h
        exact h
      have hdr2 : (List.range' 0 128).map (d' (bs.getD 28 0)) =
          (bs.drop 29).take 128 :=
        range'_zero_map_slice _ bs 29 128 (fun c hc => by
          rw [show 29 + c = 29 + c from rfl]
          exact hEnt1 c (by rw [show INODE_INDIRECT1_COUNT = 128 from rfl]; omega))
          (by omega)
      rw [hdr1, hdr2] at hcs
      have hne28157 : bs.getD 28 0 ≠ bs.getD 157 0 :=
        nodup_getD_ne bs hnd 28 157 (by omega) (by omega) (by omega)
      have hind2blk : diskSet d' (bs.getD 28 0)
          (fun j => if 0 ≤ j ∧ j < 128 then 0 else d' (bs.getD 28 0) j)
          (bs.getD 157 0) = d' (bs.getD 157 0) := by
        simp only [diskSet]
        rw [if_neg (Ne.symm hne28157)]
      rw [hind2blk] at hcs
      have hglen : ∀ y, 128 * y < DiskInode.dataBlocksOf S - 156 →
          158 + 129 * y < bs.length := fun y hy =>
        groupPos_lt_len S y bs.length hy (by omega)
      have hgm : ∀ x, x < (DiskInode.dataBlocksOf S - 156) / 128 →
          d' (bs.getD 157 0) x = bs.getD (158 + 129 * x) 0 :=
        fun x hx => hMeta x (by omega)
      have hge : ∀ x c, x < (DiskInode.dataBlocksOf S - 156) / 128 → c < 128 →
          diskSet d' (bs.getD 28 0)
            (fun j => if 0 ≤ j ∧ j < 128 then 0 else d' (bs.getD 28 0) j)
            (bs.getD (158 + 129 * x) 0) c = bs.getD (159 + 129 * x + c) 0 := by
        intro x c hx hc
        simp only [diskSet]
        rw [if_neg (Ne.symm (nodup_getD_ne bs hnd 28 (158 + 129 * x) (by omega)
          (hglen x (by omega)) (by omega)))]
        exact hEnt2 x c hc (by omega)
      rw [clearIndirect2Full_spec bs ((DiskInode.dataBlocksOf S - 156) / 128)
        ((DiskInode.dataBlocksOf S - 156) / 128) 0 _ _ (by omega)
        (fun x _ hx => hgm x hx)
        (fun x c _ hx hc => hge x c hx hc) (by omega)] at hcs
      simp only [Nat.sub_zero, Nat.mul_zero, Nat.add_zero] at hcs
      by_cases hb0 : (DiskInode.dataBlocksOf S - 156) % 128 = 0
      · rw [if_neg (by omega), List.append_nil] at hcs
        rw [show (bs.drop 158).take (129 * ((DiskInode.dataBlocksOf S - 156) / 128)) =
            bs.drop 158 from by
          apply List.take_of_length_le
          simp only [List.length_drop]
          omega] at hcs
        injection hcs with h1 h23
        injection h23 with h2 h3
        subst h1
        subst h2
        subst h3
        have hsplit157 : bs.getD 157 0 :: bs.drop 158 = bs.drop 157 :=
          (listDrop_cons bs 157 (by omega)).symm
        have hsplit29 : (bs.drop 29).take 128 ++ bs.drop 157 = bs.drop 29 := by
          have h := List.take_append_drop 128 (bs.drop 29)
          rw [List.drop_drop, show (29 : Nat) + 128 = 157 from rfl] at h
          exact h
        have hsplit28 : bs.take 28 ++ bs.getD 28 0 :: bs.drop 29 = bs := by
          have h := List.take_append_drop 28 bs
          rw [listDrop_cons bs 28 (by omega)] at h
          exact h
        have hfr : (bs.take 28 ++ bs.getD 28 0 :: (bs.drop 29).take 128) ++
            bs.getD 157 0 :: bs.drop 158 = bs := by
          rw [List.append_assoc, List.cons_append]
          rw [hsplit157, hsplit29, hsplit28]
        rw [hfr]
        refine ⟨rfl, by rw [hlen], rfl, ?_, rfl, rfl⟩
        intro j
        show (if 0 ≤ j ∧ j < 28 then 0 else di'.direct j) = 0
        by_cases hj : 0 ≤ j ∧ j < 28
        · rw [if_pos hj]
        · rw [if_neg hj, hdir j (by omega)]
          rfl
      · rw [if_pos (by omega)] at hcs
        rw [hMeta ((DiskInode.dataBlocksOf S - 156) / 128) (by omega)] at hcs
        have hlast : diskSet d' (bs.getD 28 0)
            (fun j => if 0 ≤ j ∧ j < 128 then 0 else d' (bs.getD 28 0) j)
            (bs.getD (158 + 129 * ((DiskInode.dataBlocksOf S - 156) / 128)) 0) =
            d' (bs.getD (158 + 129 * ((DiskInode.dataBlocksOf S - 156) / 128)) 0) := by
          simp only [diskSet]
          rw [if_neg (Ne.symm (nodup_getD_ne bs hnd 28 _ (by omega)
            (hglen _ (by omega)) (by omega)))]
        rw [hlast] at hcs
        have hcoll : collectRange
            (d' (bs.getD (158 + 129 * ((DiskInode.dataBlocksOf S - 156) / 128)) 0))
            ((DiskInode.dataBlocksOf S - 156) % 128) =
            (bs.drop (159 + 129 * ((DiskInode.dataBlocksOf S - 156) / 128))).take
              ((DiskInode.dataBlocksOf S - 156) % 128) := by
          rw [collectRange]
          exact range_map_slice _ bs _ _ (fun c hc =>
            hEnt2 ((DiskInode.dataBlocksOf S - 156) / 128) c (by omega) (by omega))
            (by omega)
        rw [hcoll] at hcs
        injection hcs with h1 h23
        injection h23 with h2 h3
        subst h1
        subst h2
        subst h3
        have htail : (bs.drop (159 + 129 * ((DiskInode.dataBlocksOf S - 156) / 128))).take
            ((DiskInode.dataBlocksOf S - 156) % 128) =
            bs.drop (159 + 129 * ((DiskInode.dataBlocksOf S - 156) / 128)) := by
          apply List.take_of_length_le
          simp only [List.length_drop]
          omega
        have hsplit158 : (bs.drop 158).take
            (129 * ((DiskInode.dataBlocksOf S - 156) / 128)) ++
            (bs.getD (158 + 129 * ((DiskInode.dataBlocksOf S - 156) / 128)) 0 ::
              bs.drop (159 + 129 * ((DiskInode.dataBlocksOf S - 156) / 128))) =
            bs.drop 158 := by
          have h := List.take_append_drop (129 * ((DiskInode.dataBlocksOf S - 156) / 128))
            (bs.drop 158)
          rw [List.drop_drop] at h
          rw [show 158 + 129 * ((DiskInode.dataBlocksOf S - 156) / 128) =
            158 + 129 * ((DiskInode.dataBlocksOf S - 156) / 128) from rfl] at h
          rw [listDrop_cons bs (158 + 129 * ((DiskInode.dataBlocksOf S - 156) / 128))
            (by omega)] at h
          rw [show 158 + 129 * ((DiskInode.dataBlocksOf S - 156) / 128) + 1 =
            159 + 129 * ((DiskInode.dataBlocksOf S - 156) / 128) from by omega] at h
          exact h
        have hsplit157 : bs.getD 157 0 :: bs.drop 158 = bs.drop 157 :=
          (listDrop_cons bs 157 (by omega)).symm
        have hsplit29 : (bs.drop 29).take 128 ++ bs.drop 157 = bs.drop 29 := by
          have h := List.take_append_drop 128 (bs.drop 29)
          rw [List.drop_drop, show (29 : Nat) + 128 = 157 from rfl] at h
          exact h
        have hsplit28 : bs.take 28 ++ bs.getD 28 0 :: bs.drop 29 = bs := by
          have h := List.take_append_drop 28 bs
          rw [listDrop_cons bs 28 (by omega)] at h
          exact h
        have hfr : (bs.take 28 ++ bs.getD 28 0 :: (bs.drop 29).take 128) ++
            bs.getD 157 0 ::
              ((bs.drop 158).take (129 * ((DiskInode.dataBlocksOf S - 156) / 128)) ++
                bs.getD (158 + 129 * ((DiskInode.dataBlocksOf S - 156) / 128)) 0 ::
                  (bs.drop (159 + 129 * ((DiskInode.dataBlocksOf S - 156) / 128))).take
                    ((DiskInode.dataBlocksOf S - 156) % 128)) = bs := by
          rw [List.append_assoc, List.cons_append]
          rw [htail, hsplit158, hsplit157, hsplit29, hsplit28]
        rw [hfr]
        refine ⟨rfl, by rw [hlen], rfl, ?_, rfl, rfl⟩
        intro j
        show (if 0 ≤ j ∧ j < 28 then 0 else di'.direct j) = 0
        by_cases hj : 0 ≤ j ∧ j < 28
        · rw [if_pos hj]
        · rw [if_neg hj, hdir j (by omega)]
          rfl
    · -- medium regime
      have hlenM : bs.length = DiskInode.dataBlocksOf S + 1 := by
        rw [hlen, total_blocks_eq, if_neg (by omega), if_pos (by omega)]
      have hInd1 : di'.indirect1 = bs.getD 28 0 :=
        (hI1 (by rw [show INODE_DIRECT_COUNT = 28 from rfl]; omega)).1
      have hEnt1 := (hI1 (by rw [show INODE_DIRECT_COUNT = 28 from rfl]; omega)).2
      rw [if_neg (by omega), if_pos (by omega)] at hcs
      rw [show min (DiskInode.dataBlocksOf S) 28 = 28 from by omega] at hcs
      rw [show min (DiskInode.dataBlocksOf S - 28) 128 =
        DiskInode.dataBlocksOf S - 28 from by omega] at hcs
      rw [drainEntries_spec 28 di'.direct 0 28 rfl (by omega)] at hcs
      rw [hInd1] at hcs
      rw [drainEntries_spec (DiskInode.dataBlocksOf S - 28) (d' (bs.getD 28 0)) 0
        (DiskInode.dataBlocksOf S - 28) (by omega) (by omega)] at hcs
      simp only [Nat.sub_zero] at hcs
      have hdr1 : (List.range' 0 28).map di'.direct = bs.take 28 := by
        have h := range'_zero_map_slice di'.direct bs 0 28 (fun c hc => by
          rw [Nat.zero_add]
          exact hIdir c (by omega) (by rw [show INODE_DIRECT_COUNT = 28 from rfl]; omega))
          (by omega)
        rw [List.drop_zero] at h
        exact h
      have hdr2 : (List.range' 0 (DiskInode.dataBlocksOf S - 28)).map
          (d' (bs.getD 28 0)) = (bs.drop 29).take (DiskInode.dataBlocksOf S - 28) :=
        range'_zero_map_slice _ bs 29 _ (fun c hc =>
          hEnt1 c (by rw [show INODE_INDIRECT1_COUNT = 128 from rfl]; omega))
          (by omega)
      rw [hdr1, hdr2] at hcs
      rw [show (bs.drop 29).take (DiskInode.dataBlocksOf S - 28) = bs.drop 29 from by
        apply List.take_of_length_le
        simp only [List.length_drop]
        omega] at hcs
      injection hcs with h1 h23
      injection h23 with h2 h3
      subst h1
      subst h2
      subst h3
      have hsplit28 : bs.take 28 ++ bs.getD 28 0 :: bs.drop 29 = bs := by
        have h := List.take_append_drop 28 bs
        rw [listDrop_cons bs 28 (by omega)] at h
        exact h
      rw [hsplit28]
      refine ⟨rfl, by rw [hlen], rfl, ?_, rfl, ?_⟩
      · intro j
        show (if 0 ≤ j ∧ j < 28 then 0 else di'.direct j) = 0
        by_cases hj : 0 ≤ j ∧ j < 28
        · rw [if_pos hj]
        · rw [if_neg hj, hdir j (by omega)]
          rfl
      · show di'.indirect2 = 0
        rw [hi02 (by omega)]
        rfl
  · -- small regime
    have hlenS : bs.length = DiskInode.dataBlocksOf S := by
      rw [hlen, total_blocks_eq, if_pos (by omega)]
    rw [if_pos (by omega)] at hcs
    rw [show min (DiskInode.dataBlocksOf S) 28 = DiskInode.dataBlocksOf S
      from by omega] at hcs
    rw [drainEntries_spec (DiskInode.dataBlocksOf S) di'.direct 0
      (DiskInode.dataBlocksOf S) (by omega) (by omega)] at hcs
    simp only [Nat.sub_zero] at hcs
    have hdr1 : (List.range' 0 (DiskInode.dataBlocksOf S)).map di'.direct =
        bs.take (DiskInode.dataBlocksOf S) := by
      have h := range'_zero_map_slice di'.direct bs 0 (DiskInode.dataBlocksOf S)
        (fun c hc => by
          rw [Nat.zero_add]
          exact hIdir c (by omega) (by rw [show INODE_DIRECT_COUNT = 28 from rfl]; omega))
        (by omega)
      rw [List.drop_zero] at h
      exact h
    rw [hdr1] at hcs
    rw [show bs.take (DiskInode.dataBlocksOf S) = bs from
      List.take_of_length_le (by omega)] at hcs
    injection hcs with h1 h23
    injection h23 with h2 h3
    subst h1
    subst h2
    subst h3
    refine ⟨rfl, by rw [hlen], rfl, ?_, ?_, ?_⟩
    · intro j
      show (if 0 ≤ j ∧ j < DiskInode.dataBlocksOf S then 0 else di'.direct j) = 0
      by_cases hj : 0 ≤ j ∧ j < DiskInode.dataBlocksOf S
      · rw [if_pos hj]
      · rw [if_neg hj, hdir j (by omega)]
        rfl
    · show di'.indirect1 = 0
      rw [hi01 (by omega)]
      rfl
    · show di'.indirect2 = 0
      rw [hi02 (by omega)]
      rfl

/-- C6 witness: the clear_size theorem at size 3 (one data block), built with
allocation list `[5]` on an all-zero disk. -/
theorem disk_inode_clear_size_spec_witness :
    (let r := DiskInode.increase_size (DiskInode.initialize_ DiskInodeType.file)
        (fun _ _ => 0) 3 [5]
     (DiskInode.clear_size r.1 r.2).2.2 = [5] ∧
     (DiskInode.clear_size r.1 r.2).2.2.length = DiskInode.total_blocks 3 ∧
     (DiskInode.clear_size r.1 r.2).1.size = 0 ∧
     (DiskInode.clear_size r.1 r.2).1.indirect1 = 0 ∧
     (DiskInode.clear_size r.1 r.2).1.indirect2 = 0) := by
  have h := disk_inode_clear_size_spec DiskInodeType.file (fun _ _ => 0) 3 [5]
    (by decide) (by decide) (by decide)
    (DiskInode.increase_size (DiskInode.initialize_ DiskInodeType.file)
      (fun _ _ => 0) 3 [5]).1
    (DiskInode.increase_size (DiskInode.initialize_ DiskInodeType.file)
      (fun _ _ => 0) 3 [5]).2
    rfl
  exact ⟨h.1, h.2.1, h.2.2.1, h.2.2.2.2.1, h.2.2.2.2.2⟩
